import Mathlib

/-!
Shallow embedding of the `tiny-operator` composite reconciler
(`pkg/composite/composite.go`, plus the earlier dry-run variant preserved in
the repository history) together with a model of the storage collaborator it
drives, and proofs of the specification's claims about it.

Machine strings and Kubernetes UIDs are modelled as `String` and `Nat`
respectively; the storage backend ("cluster") is an explicit state threaded
through each operation; fallible collaborator calls are driven by explicit
failure oracles so that partial-failure behaviour can be stated.
-/

set_option autoImplicit false

namespace TinyOperator

/-- Group/kind pair, as in `schema.GroupKind`. -/
structure GroupKind where
  group : String
  kind : String
deriving DecidableEq, Inhabited

/-- Group/version/kind triple, as in `schema.GroupVersionKind`. -/
structure GroupVersionKind where
  group : String
  version : String
  kind : String
deriving DecidableEq, Inhabited

/-- Projection matching Go's `GroupVersionKind.GroupKind()`. -/
def GroupVersionKind.groupKind (g : GroupVersionKind) : GroupKind :=
  ⟨g.group, g.kind⟩

/-- Storage-assigned identity of an object (`types.UID`); modelled as `Nat`,
with `0` playing the role of the zero value of Go's string UID. -/
abbrev UID := Nat

/-- Translation of `kindIndex` from `composite.go`: index of the first entry
whose group and kind match, `none` standing for Go's `-1`. -/
def kindIndex (kinds : List GroupVersionKind) (kind : GroupKind) : Option Nat :=
  match kinds with
  | [] => none
  | k :: rest =>
    if k.group == kind.group && k.kind == kind.kind then some 0
    else (kindIndex rest kind).map (fun i => i + 1)

/-- Translation of `hasUID` from `composite.go`. -/
def hasUID (uids : List UID) (uid : UID) : Bool :=
  uids.any (fun i => i == uid)

/-- Persisted composite state (`State` in `composite.go`). -/
structure State where
  deployedKinds : List GroupVersionKind
deriving DecidableEq, Inhabited

/-- Loop body of `State.EnsureKinds`: the deployed-kind list together with the
`madeChanges` flag, folded over the requested kinds. -/
def ensureKindsAux : List GroupVersionKind → Bool → List GroupVersionKind →
    List GroupVersionKind × Bool
  | dk, changed, [] => (dk, changed)
  | dk, changed, k :: ks =>
    match kindIndex dk k.groupKind with
    | none => ensureKindsAux (dk ++ [k]) true ks
    | some idx =>
      let gvk := dk.getD idx default
      if gvk.version ≠ k.version then
        ensureKindsAux (dk.set idx k) true ks
      else
        ensureKindsAux dk changed ks

/-- Translation of `State.EnsureKinds`: merge the given kinds into the state,
returning the new state and whether any change was made. -/
def State.EnsureKinds (s : State) (kinds : List GroupVersionKind) : State × Bool :=
  let dkc := ensureKindsAux s.deployedKinds false kinds
  (⟨dkc.1⟩, dkc.2)

/-- Error model: a plain message, the `permanentError` wrapper from
`composite.go`, or the composite error of `pkg/errors`. -/
inductive GoError where
  | msg (text : String)
  | permanent (inner : GoError)
  | composite (causes : List GoError)
deriving Inhabited

/-- Translation of `IsPermanentError` from `composite.go`. -/
def IsPermanentError : GoError → Bool
  | .permanent _ => true
  | _ => false

/-- Modelled from the spec: `Append` of `pkg/errors` (its implementation is
absent from the sources, only its tests are present).  Per spec §4.5: a nil
`next` returns `existing` unchanged, a nil `existing` returns `next` as-is,
and otherwise the result is a composite value extending the ordered list of
causes. -/
def tinyAppend (existing next : Option GoError) : Option GoError :=
  match existing, next with
  | e, none => e
  | none, some n => some n
  | some (GoError.composite cs), some n => some (GoError.composite (cs ++ [n]))
  | some e, some n => some (GoError.composite [e, n])

/-- Value held under a metadata annotation key.  A well-formed encoding of a
`State` is represented structurally; any other stored text is `raw`, standing
for content that `json.Unmarshal` rejects. -/
inductive AnnoValue where
  | stateVal (s : State)
  | raw (text : String)
deriving DecidableEq

/-- Look up a key in an association list (first match), as Go map indexing. -/
def lookupStr {α : Type} (m : List (String × α)) (k : String) : Option α :=
  (m.find? (fun p => p.1 == k)).map (fun p => p.2)

/-- Set a key in an association list, replacing the first occurrence in place
or appending, as Go map assignment. -/
def setEntry {α : Type} : List (String × α) → String → α → List (String × α)
  | [], k, v => [(k, v)]
  | (k', v') :: rest, k, v =>
    if k' == k then (k, v) :: rest else (k', v') :: setEntry rest k v

/-- Reserved annotation key `hive.wellplayed.games/composite-state`. -/
def stateKey : String := "hive.wellplayed.games/composite-state"

/-- Correlation label key `hive.wellplayed.games/composite-parent`. -/
def parentLabelKey : String := "hive.wellplayed.games/composite-parent"

/-- The parent object: identity, metadata annotations (a `none` map models a
nil Go map) and a resource version standing for its persisted revision. -/
structure ParentObj where
  uid : UID
  annos : Option (List (String × AnnoValue))
  rv : Nat
deriving DecidableEq

/-- Translation of `stateAccessor.GetCompositeState`: an absent map or absent
key yields an empty state; malformed content yields a (plain) decode error. -/
def GetCompositeState (p : ParentObj) : Except GoError State :=
  match p.annos with
  | none => .ok ⟨[]⟩
  | some anno =>
    match lookupStr anno stateKey with
    | none => .ok ⟨[]⟩
    | some (AnnoValue.stateVal s) => .ok s
    | some (AnnoValue.raw t) => .error (GoError.msg ("invalid composite state: " ++ t))

/-- Translation of `stateAccessor.SetCompositeState`: serialize the state into
the annotation map, creating the map if absent.  (Encoding this plain record
cannot fail, matching the spec's note.) -/
def SetCompositeState (p : ParentObj) (s : State) : ParentObj :=
  let anno := p.annos.getD []
  { p with annos := some (setEntry anno stateKey (AnnoValue.stateVal s)) }

/-- An object held by (or destined for) the storage backend: kind, key,
identity, labels, controller-owner back-reference and an abstract payload
standing for the rest of its applied configuration. -/
structure Obj where
  gvk : GroupVersionKind
  ns : String
  name : String
  uid : UID
  labels : List (String × String)
  ownerUID : Option UID
  payload : String
  rv : Nat
deriving DecidableEq, Inhabited

/-- Storage key of an object: kind, namespace and name. -/
def objKey (o : Obj) : GroupVersionKind × String × String :=
  (o.gvk, o.ns, o.name)

/-- Storage backend state: the stored objects plus the UID allocator. -/
structure Cluster where
  objs : List Obj
  nextUID : Nat
deriving DecidableEq

/-- A cluster is well formed when stored UIDs are distinct and below the
allocator mark, and storage keys are unique. -/
def Cluster.WellFormed (c : Cluster) : Prop :=
  (c.objs.map (fun o => o.uid)).Nodup ∧
  (∀ o ∈ c.objs, o.uid < c.nextUID) ∧
  (c.objs.map objKey).Nodup

instance (c : Cluster) : Decidable c.WellFormed := by
  unfold Cluster.WellFormed; infer_instance

/-- Find the stored object with the same storage key as `ch` (server lookup
performed by an apply-style `Patch`). -/
def findObj (c : Cluster) (ch : Obj) : Option Obj :=
  c.objs.find? (fun s => s.gvk == ch.gvk && s.ns == ch.ns && s.name == ch.name)

/-- Fields claimed by the apply-style upsert: labels, controller-owner and
payload. -/
def appliedFields (o : Obj) : List (String × String) × Option UID × String :=
  (o.labels, o.ownerUID, o.payload)

/-- Replace every stored object carrying the given storage key. -/
def replaceByKey (objs : List Obj) (key : GroupVersionKind × String × String)
    (s' : Obj) : List Obj :=
  objs.map (fun o => if objKey o = key then s' else o)

/-- Modelled from the spec (§6 storage collaborator): apply-style upsert.  An
existing object keeps its identity; its claimed fields are forcibly set, and
its revision is bumped only if that actually changes them.  A missing object
is created with a fresh identity.  Returns the resulting stored object (as
read back by the client) and the new backend state. -/
def applyPatch (c : Cluster) (ch : Obj) : Obj × Cluster :=
  match findObj c ch with
  | some s =>
    if appliedFields s = appliedFields ch then
      (s, c)
    else
      let s' := { s with labels := ch.labels, ownerUID := ch.ownerUID,
                         payload := ch.payload, rv := s.rv + 1 }
      (s', { c with objs := replaceByKey c.objs (objKey s) s' })
  | none =>
    let s' := { ch with uid := c.nextUID, rv := 1 }
    (s', { c with objs := c.objs ++ [s'], nextUID := c.nextUID + 1 })

/-- Result of an apply-style upsert without persisting it (a dry-run patch). -/
def applyPatchResult (c : Cluster) (ch : Obj) : Obj :=
  (applyPatch c ch).1

/-- Delete the stored object(s) with the given identity. -/
def deleteObj (c : Cluster) (uid : UID) : Cluster :=
  { c with objs := c.objs.filter (fun o => !(o.uid == uid)) }

/-- List all stored objects of one kind carrying the parent-correlation label
with the given value (a `List` with a label selector). -/
def listLabeled (c : Cluster) (gvk : GroupVersionKind) (labelVal : String) : List Obj :=
  c.objs.filter (fun o => o.gvk == gvk && lookupStr o.labels parentLabelKey == some labelVal)

/-- Persist the parent object (`client.Update` on the parent): the backend
bumps its revision. -/
def updateParent (p : ParentObj) : ParentObj :=
  { p with rv := p.rv + 1 }

/-- Failure oracles for the storage collaborator: which patch, list, delete
and parent-update calls fail, and which metadata read-backs fail. -/
structure Oracles where
  patchFail : Obj → Option GoError
  accessFail : Obj → Bool
  listFail : GroupVersionKind → Option GoError
  deleteFail : UID → Option GoError
  updateFail : Option GoError

/-- Oracles under which every collaborator call succeeds. -/
def NoFailures (o : Oracles) : Prop :=
  (∀ ch, o.patchFail ch = none) ∧ (∀ ch, o.accessFail ch = false) ∧
  (∀ g, o.listFail g = none) ∧ (∀ u, o.deleteFail u = none) ∧
  o.updateFail = none

/-- The oracle assignment with no failures at all. -/
def noFailOracles : Oracles :=
  ⟨fun _ => none, fun _ => false, fun _ => none, fun _ => none, none⟩

/-- Mutable fields of the `Reconciler` struct from `composite.go`: the UIDs
and kinds asserted so far on this instance (both empty after `New`). -/
structure Reconciler where
  assertedUIDs : List UID
  assertedKinds : List GroupVersionKind
deriving DecidableEq, Inhabited

/-- Per-child metadata mutation of `markDesiredKinds`: merge the
parent-correlation label into the labels and, when namespace-scoped, set the
parent as controller-owner. -/
def markChild (parentUID : UID) (ch : Obj) : Obj :=
  let ch := { ch with labels := setEntry ch.labels parentLabelKey (toString parentUID) }
  if ch.ns ≠ "" then { ch with ownerUID := some parentUID } else ch

/-- Kind-tracking loop of `markDesiredKinds`: fold each child's resolved kind
into the asserted-kind list, overwriting in place or appending. -/
def markKinds : List GroupVersionKind → List GroupVersionKind → List GroupVersionKind
  | ak, [] => ak
  | ak, gvk :: rest =>
    match kindIndex ak gvk.groupKind with
    | some i => markKinds (ak.set i gvk) rest
    | none => markKinds (ak ++ [gvk]) rest

/-- Translation of `Reconciler.markDesiredKinds` from `composite.go`: track
the children's kinds on the instance, label and own the children, merge the
kinds into the persisted state and, if that changed it, write the parent.
Kind resolution and ownership assignment are total here: no claim exercises
their failure paths.  Returns the updated instance, the mutated children, the
parent, the (merged) in-memory state and the call's outcome. -/
def markDesiredKinds (o : Oracles) (r : Reconciler) (p : ParentObj) (state : State)
    (children : List Obj) :
    Reconciler × List Obj × ParentObj × State × Option GoError :=
  let ak := markKinds r.assertedKinds (children.map (fun ch => ch.gvk))
  let children' := children.map (markChild p.uid)
  let r' := { r with assertedKinds := ak }
  let stc := State.EnsureKinds state ak
  if stc.2 then
    let p' := SetCompositeState p stc.1
    match o.updateFail with
    | some e => (r', children', p', stc.1, some e)
    | none => (r', children', updateParent p', stc.1, none)
  else
    (r', children', p, stc.1, none)

/-- Loop of `Reconciler.assertChildren`: apply each child in turn, recording
patch failures into the aggregate and continuing; a failed metadata read-back
returns a Permanent error at once (leaving the remaining children
unprocessed); every processed child's UID is appended to the instance. -/
def assertChildrenAux (o : Oracles) : Reconciler → Cluster → Option GoError →
    List Obj → Reconciler × Cluster × Option GoError
  | r, c, passErr, [] => (r, c, passErr)
  | r, c, passErr, ch :: rest =>
    let step :=
      match o.patchFail ch with
      | some e => (ch, c, tinyAppend passErr (some e))
      | none =>
        let (res, c₂) := applyPatch c ch
        (res, c₂, passErr)
    match step with
    | (res, c', passErr') =>
      if o.accessFail ch then
        (r, c', some (GoError.permanent (GoError.msg "failed to access child metadata")))
      else
        assertChildrenAux o { r with assertedUIDs := r.assertedUIDs ++ [res.uid] }
          c' passErr' rest

/-- Translation of `Reconciler.assertChildren` from `composite.go`. -/
def assertChildren (o : Oracles) (r : Reconciler) (c : Cluster) (children : List Obj) :
    Reconciler × Cluster × Option GoError :=
  assertChildrenAux o r c none children

/-- Inner loop of `Reconciler.prune` over one kind's listed objects: skip
objects in the keep-set, delete the rest, aggregating delete failures.
(`meta.Accessor` cannot fail on listed unstructured objects, and stamping the
queried kind back onto a listed object is the identity here, since modelled
objects always carry their kind.) -/
def pruneItems (o : Oracles) (keep : List UID) : Cluster → Option GoError →
    List Obj → Cluster × Option GoError
  | c, passErr, [] => (c, passErr)
  | c, passErr, item :: rest =>
    if hasUID keep item.uid then
      pruneItems o keep c passErr rest
    else
      match o.deleteFail item.uid with
      | some e => pruneItems o keep c (tinyAppend passErr (some e)) rest
      | none => pruneItems o keep (deleteObj c item.uid) passErr rest

/-- Outer loop of `Reconciler.prune` over the historical kinds: list each
kind by the parent-correlation selector and prune the results; a list failure
aborts immediately with that error. -/
def pruneKinds (o : Oracles) (keep : List UID) (labelVal : String) :
    Cluster → Option GoError → List GroupVersionKind →
    Cluster × Option GoError × Option GoError
  | c, passErr, [] => (c, passErr, none)
  | c, passErr, gvk :: rest =>
    match o.listFail gvk with
    | some e => (c, passErr, some e)
    | none =>
      let (c', passErr') := pruneItems o keep c passErr (listLabeled c gvk labelVal)
      pruneKinds o keep labelVal c' passErr' rest

/-- Translation of `Reconciler.prune` from `composite.go`: delete every
labelled object of a historical kind outside the keep-set; if any delete
failed return the aggregate with no state change; otherwise shrink the
persisted kind list to the asserted kinds when the lengths differ. -/
def prune (o : Oracles) (r : Reconciler) (p : ParentObj) (state : State)
    (c : Cluster) : ParentObj × Cluster × Option GoError :=
  match pruneKinds o r.assertedUIDs (toString p.uid) c none state.deployedKinds with
  | (c', _, some e) => (p, c', some e)
  | (c', passErr, none) =>
    if passErr.isSome then
      (p, c', passErr)
    else if state.deployedKinds.length ≠ r.assertedKinds.length then
      let p' := SetCompositeState p ⟨r.assertedKinds⟩
      match o.updateFail with
      | some e => (p', c', some e)
      | none => (updateParent p', c', none)
    else
      (p, c', none)

/-- Translation of `Reconciler.Reconcile` from `composite.go`: read state
(malformed state is Permanent), mark kinds, assert children, prune. -/
def Reconcile (o : Oracles) (r : Reconciler) (p : ParentObj) (c : Cluster)
    (children : List Obj) : Reconciler × ParentObj × Cluster × Option GoError :=
  match GetCompositeState p with
  | .error e => (r, p, c, some (GoError.permanent e))
  | .ok state =>
    match markDesiredKinds o r p state children with
    | (r₁, _children₁, p₁, _state₁, some e) => (r₁, p₁, c, some e)
    | (r₁, children₁, p₁, state₁, none) =>
      match assertChildren o r₁ c children₁ with
      | (r₂, c₂, some e) => (r₂, p₁, c₂, some e)
      | (r₂, c₂, none) =>
        match prune o r₂ p₁ state₁ c₂ with
        | (p₃, c₃, err) => (r₂, p₃, c₃, err)

/-- Translation of `Reconciler.ReconcileWithoutPrune` from `composite.go`. -/
def ReconcileWithoutPrune (o : Oracles) (r : Reconciler) (p : ParentObj)
    (c : Cluster) (children : List Obj) :
    Reconciler × ParentObj × Cluster × Option GoError :=
  match GetCompositeState p with
  | .error e => (r, p, c, some (GoError.permanent e))
  | .ok state =>
    match markDesiredKinds o r p state children with
    | (r₁, _children₁, p₁, _state₁, some e) => (r₁, p₁, c, some e)
    | (r₁, children₁, p₁, _state₁, none) =>
      match assertChildren o r₁ c children₁ with
      | (r₂, c₂, err) => (r₂, p₁, c₂, err)

/-- Translation of the public `Reconciler.Prune` from `composite.go`: read
state (malformed state is Permanent) and prune with the instance's current
keep-set.  No identities are fetched from storage. -/
def Prune (o : Oracles) (r : Reconciler) (p : ParentObj) (c : Cluster) :
    ParentObj × Cluster × Option GoError :=
  match GetCompositeState p with
  | .error e => (p, c, some (GoError.permanent e))
  | .ok state => prune o r p state c

namespace DryRunVariant

/-!
Embedding of the earlier revision of `pkg/composite` preserved in the
repository sources (`src/unnamed/part_000`, second revision), whose
operations carry an explicit `dryRun` flag: a dry-run patch is issued against
a deep copy with the dry-run option (the backend computes but does not
persist the result), dry-run deletes do not remove anything, and both state
writes are guarded by `!dryRun`.
-/

/-- Loop of this revision's `Reconciler.assertChildren`: like the current
one, but collecting the UID list locally and, under `dryRun`, patching a deep
copy without persisting. -/
def assertChildrenAux (o : Oracles) (dry : Bool) : List UID → Cluster →
    Option GoError → List Obj → List UID × Cluster × Option GoError
  | uids, c, passErr, [] => (uids, c, passErr)
  | uids, c, passErr, ch :: rest =>
    let step :=
      match o.patchFail ch with
      | some e => (ch, c, tinyAppend passErr (some e))
      | none =>
        if dry then (applyPatchResult c ch, c, passErr)
        else
          let (res, c₂) := applyPatch c ch
          (res, c₂, passErr)
    match step with
    | (res, c', passErr') =>
      if o.accessFail ch then
        (uids, c', some (GoError.permanent (GoError.msg "failed to access child metadata")))
      else
        assertChildrenAux o dry (uids ++ [res.uid]) c' passErr' rest

/-- Translation of this revision's `Reconciler.assertChildren`. -/
def assertChildren (o : Oracles) (c : Cluster) (children : List Obj) (dry : Bool) :
    List UID × Cluster × Option GoError :=
  assertChildrenAux o dry [] c none children

/-- Translation of this revision's `Reconciler.markDesiredKinds`: build the
desired-kind list locally, label and own the children, and write the merged
state to the parent only when it changed and this is not a dry run. -/
def markDesiredKinds (o : Oracles) (p : ParentObj) (state : State)
    (children : List Obj) (dry : Bool) :
    List GroupVersionKind × List Obj × ParentObj × State × Option GoError :=
  let dk := markKinds [] (children.map (fun ch => ch.gvk))
  let children' := children.map (markChild p.uid)
  let stc := State.EnsureKinds state dk
  if stc.2 && !dry then
    let p' := SetCompositeState p stc.1
    match o.updateFail with
    | some e => (dk, children', p', stc.1, some e)
    | none => (dk, children', updateParent p', stc.1, none)
  else
    (dk, children', p, stc.1, none)

/-- Inner prune loop of this revision: dry-run deletes may fail but remove
nothing. -/
def pruneItems (o : Oracles) (keep : List UID) (dry : Bool) : Cluster →
    Option GoError → List Obj → Cluster × Option GoError
  | c, passErr, [] => (c, passErr)
  | c, passErr, item :: rest =>
    if hasUID keep item.uid then
      pruneItems o keep dry c passErr rest
    else
      match o.deleteFail item.uid with
      | some e => pruneItems o keep dry c (tinyAppend passErr (some e)) rest
      | none =>
        pruneItems o keep dry (if dry then c else deleteObj c item.uid) passErr rest

/-- Outer prune loop of this revision over the historical kinds. -/
def pruneKinds (o : Oracles) (keep : List UID) (labelVal : String) (dry : Bool) :
    Cluster → Option GoError → List GroupVersionKind →
    Cluster × Option GoError × Option GoError
  | c, passErr, [] => (c, passErr, none)
  | c, passErr, gvk :: rest =>
    match o.listFail gvk with
    | some e => (c, passErr, some e)
    | none =>
      let (c', passErr') := pruneItems o keep dry c passErr (listLabeled c gvk labelVal)
      pruneKinds o keep labelVal dry c' passErr' rest

/-- Translation of this revision's `Reconciler.prune`: the state shrink is
additionally guarded by `!dryRun`. -/
def prune (o : Oracles) (p : ParentObj) (state : State) (desiredUIDs : List UID)
    (desiredKinds : List GroupVersionKind) (c : Cluster) (dry : Bool) :
    ParentObj × Cluster × Option GoError :=
  match pruneKinds o desiredUIDs (toString p.uid) dry c none state.deployedKinds with
  | (c', _, some e) => (p, c', some e)
  | (c', passErr, none) =>
    if passErr.isSome then
      (p, c', passErr)
    else if (state.deployedKinds.length ≠ desiredKinds.length) && !dry then
      let p' := SetCompositeState p ⟨desiredKinds⟩
      match o.updateFail with
      | some e => (p', c', some e)
      | none => (updateParent p', c', none)
    else
      (p, c', none)

/-- Translation of this revision's `Reconciler.Reconcile(ctx, owner, parent,
children, dryRun)`.  The desired-UID list collected by `assertChildren` (the
identities the call reports as applied and kept) is surfaced alongside the
result. -/
def Reconcile (o : Oracles) (p : ParentObj) (c : Cluster) (children : List Obj)
    (dry : Bool) : ParentObj × Cluster × List UID × Option GoError :=
  match GetCompositeState p with
  | .error e => (p, c, [], some (GoError.permanent e))
  | .ok state =>
    match markDesiredKinds o p state children dry with
    | (_dk, _children₁, p₁, _state₁, some e) => (p₁, c, [], some e)
    | (dk, children₁, p₁, state₁, none) =>
      match assertChildren o c children₁ dry with
      | (uids, c₂, some e) => (p₁, c₂, uids, some e)
      | (uids, c₂, none) =>
        match prune o p₁ state₁ uids dk c₂ dry with
        | (p₃, c₃, err) => (p₃, c₃, uids, err)

end DryRunVariant

/-! Helper definitions used to state specifications. -/

/-- Group/kind projections of a kind list. -/
def gks (l : List GroupVersionKind) : List GroupKind :=
  l.map GroupVersionKind.groupKind

/-- Last entry of `ks` carrying the given group/kind, if any. -/
def lastWithGK (ks : List GroupVersionKind) (g : GroupKind) : Option GroupVersionKind :=
  ks.reverse.find? (fun k => decide (k.groupKind = g))

/-- Keep the first occurrence of every element, preserving order. -/
def firstDedup : List GroupKind → List GroupKind
  | [] => []
  | g :: rest => g :: firstDedup (rest.filter (fun h => decide (h ≠ g)))
termination_by l => l.length
decreasing_by
  simp only [List.length_cons]
  exact Nat.lt_succ_of_le (List.length_filter_le _ _)

/-- Group/kinds of `ks` not yet present in `s`, first occurrences only, in
order: the group/kinds `EnsureKinds` appends. -/
def newGKs (s ks : List GroupVersionKind) : List GroupKind :=
  firstDedup ((gks ks).filter (fun g => !(decide (g ∈ gks s))))

/-- An object subject to pruning: its kind is in the historical list, it
carries the parent-correlation label and it is outside the keep-set. -/
def isOrphan (dk : List GroupVersionKind) (labelVal : String) (keep : List UID)
    (ob : Obj) : Bool :=
  dk.contains ob.gvk && (lookupStr ob.labels parentLabelKey == some labelVal) &&
    !(hasUID keep ob.uid)

/-- Fold the error aggregator over a sequence of per-operation outcomes. -/
def foldAppend (pe : Option GoError) (l : List (Option GoError)) : Option GoError :=
  l.foldl tinyAppend pe

/-- The cluster after the patch phase: each child whose patch call does not
fail is applied in turn. -/
def applyFold (o : Oracles) : Cluster → List Obj → Cluster
  | c, [] => c
  | c, ch :: rest =>
    match o.patchFail ch with
    | some _ => applyFold o c rest
    | none => applyFold o (applyPatch c ch).2 rest

/-- The identity collected for each child during the patch phase: the child's
own (pre-apply) UID when its patch fails, the stored object's UID otherwise. -/
def collectPatched (o : Oracles) : Cluster → List Obj → List UID
  | _, [] => []
  | c, ch :: rest =>
    match o.patchFail ch with
    | some _ => ch.uid :: collectPatched o c rest
    | none => (applyPatch c ch).1.uid :: collectPatched o (applyPatch c ch).2 rest

/-- UID under which a child is currently stored, or its own if absent. -/
def findUID (c : Cluster) (ch : Obj) : UID :=
  ((findObj c ch).getD ch).uid

/-- The objects a prune pass visits and deletes: for each historical kind in
order, the labelled objects of that kind outside the keep-set. -/
def orphansOf (dks : List GroupVersionKind) (labelVal : String) (keep : List UID)
    (c : Cluster) : List Obj :=
  dks.flatMap (fun g => (listLabeled c g labelVal).filter (fun ob => !(hasUID keep ob.uid)))

/-- Predicate for an object surviving a prune pass: it is not an orphan whose
delete call succeeds. -/
def pruneSurvives (o : Oracles) (dks : List GroupVersionKind) (labelVal : String)
    (keep : List UID) (ob : Obj) : Bool :=
  !(isOrphan dks labelVal keep ob && (o.deleteFail ob.uid).isNone)

/-- Cluster left behind by pruning the listed objects of a single kind. -/
def pruneOneKindCluster (o : Oracles) (keep : List UID) (lv : String)
    (g : GroupVersionKind) (c : Cluster) : Cluster :=
  { c with objs := c.objs.filter (fun ob =>
      !((listLabeled c g lv).any (fun it => it.uid == ob.uid && !(hasUID keep it.uid) &&
        (o.deleteFail it.uid).isNone))) }

/-! Concrete instances used by witnesses and counterexamples. -/

/-- The `v1 Service` kind. -/
def svcGVK : GroupVersionKind := ⟨"", "v1", "Service"⟩

/-- A `v2 Service` kind (same group/kind as `svcGVK`, different version). -/
def svcV2GVK : GroupVersionKind := ⟨"", "v2", "Service"⟩

/-- The `v1 ConfigMap` kind. -/
def cmGVK : GroupVersionKind := ⟨"", "v1", "ConfigMap"⟩

/-- A parent with no annotation map. -/
def wParentBare : ParentObj := ⟨1, none, 0⟩

/-- A parent whose state annotation holds malformed content. -/
def wParentRaw : ParentObj := ⟨1, some [(stateKey, AnnoValue.raw "oops")], 0⟩

/-- A parent whose persisted state lists only the Service kind. -/
def wParentSvc : ParentObj := ⟨1, some [(stateKey, AnnoValue.stateVal ⟨[svcGVK]⟩)], 0⟩

/-- A stored Service child labelled for `wParentSvc`. -/
def wSvcObj : Obj := ⟨svcGVK, "default", "my-service", 5, [(parentLabelKey, "1")], some 1, "svc", 3⟩

/-- A second and third stored Service child labelled for `wParentSvc`. -/
def wSvcObjB : Obj := ⟨svcGVK, "default", "svc-b", 8, [(parentLabelKey, "1")], some 1, "svc", 3⟩

/-- Companion to `wSvcObjB`. -/
def wSvcObjC : Obj := ⟨svcGVK, "default", "svc-c", 9, [(parentLabelKey, "1")], some 1, "svc", 3⟩

/-- A desired ConfigMap child, not yet stored. -/
def wCmChild : Obj := ⟨cmGVK, "default", "my-config-map", 0, [], none, "cm", 0⟩

/-- A desired Service child of version v2. -/
def wSvcV2Child : Obj := ⟨svcV2GVK, "default", "svc-v2", 0, [], none, "svc2", 0⟩

/-- A cluster holding just the labelled Service child. -/
def wCluster1 : Cluster := ⟨[wSvcObj], 6⟩

/-- A cluster holding three labelled Service children. -/
def wCluster3 : Cluster := ⟨[wSvcObj, wSvcObjB, wSvcObjC], 10⟩

/-- The empty cluster. -/
def wEmptyCluster : Cluster := ⟨[], 0⟩

/-- Oracles under which every patch call fails. -/
def wPatchFailOracles : Oracles :=
  ⟨fun _ => some (GoError.msg "patch failed"), fun _ => false, fun _ => none,
    fun _ => none, none⟩

/-- Oracles under which deleting UID 5 fails and everything else succeeds. -/
def wDeleteFailOracles : Oracles :=
  ⟨fun _ => none, fun _ => false, fun _ => none,
    fun u => if u == 5 then some (GoError.msg "delete failed") else none, none⟩

/-- A desired child whose own UID is 7 (as if read back earlier). -/
def wChild7 : Obj := ⟨svcGVK, "default", "child-7", 7, [], none, "p", 0⟩

/-- Two desired children sharing one storage key but with different payloads. -/
def wDupA : Obj := ⟨cmGVK, "default", "dup", 0, [], none, "payload-a", 0⟩

/-- Companion to `wDupA`: same key, different payload. -/
def wDupB : Obj := ⟨cmGVK, "default", "dup", 0, [], none, "payload-b", 0⟩

/-- Two desired children with distinct keys, neither stored yet. -/
def wNewA : Obj := ⟨cmGVK, "default", "new-a", 0, [], none, "pa", 0⟩

/-- Companion to `wNewA`. -/
def wNewB : Obj := ⟨cmGVK, "default", "new-b", 0, [], none, "pb", 0⟩

/-! Generic lemmas about the association-list and list helpers. -/

theorem set_getElem_self {α : Type} (l : List α) (i : Nat) (a : α)
    (h : l[i]? = some a) : l.set i a = l := by
  induction l generalizing i with
  | nil => simp at h
  | cons x xs ih =>
    cases i with
    | zero => simp_all
    | succ n =>
      simp only [List.getElem?_cons_succ] at h
      simp [List.set, ih n h]

theorem lookupStr_cons {α : Type} (k0 : String) (v0 : α) (rest : List (String × α))
    (k : String) :
    lookupStr ((k0, v0) :: rest) k = if k0 = k then some v0 else lookupStr rest k := by
  by_cases h : k0 = k
  · rw [lookupStr, List.find?_cons_of_pos _ (by simpa using h)]
    simp [h]
  · rw [lookupStr, List.find?_cons_of_neg _ (by simpa using h)]
    simp [h, lookupStr]

theorem setEntry_cons {α : Type} (k0 : String) (v0 : α) (rest : List (String × α))
    (k : String) (v : α) :
    setEntry ((k0, v0) :: rest) k v =
      if k0 = k then (k, v) :: rest else (k0, v0) :: setEntry rest k v := by
  by_cases h : k0 = k <;> simp [setEntry, h]

theorem lookupStr_setEntry_self {α : Type} (m : List (String × α)) (k : String)
    (v : α) : lookupStr (setEntry m k v) k = some v := by
  induction m with
  | nil => simp [setEntry, lookupStr_cons]
  | cons p rest ih =>
    obtain ⟨k0, v0⟩ := p
    rw [setEntry_cons]
    by_cases h : k0 = k
    · simp [h, lookupStr_cons]
    · rw [if_neg h, lookupStr_cons, if_neg h]
      exact ih

theorem lookupStr_setEntry_ne {α : Type} (m : List (String × α)) (k k' : String)
    (v : α) (hne : k' ≠ k) : lookupStr (setEntry m k v) k' = lookupStr m k' := by
  induction m with
  | nil => simp [setEntry, lookupStr_cons, lookupStr, Ne.symm hne]
  | cons p rest ih =>
    obtain ⟨k0, v0⟩ := p
    rw [setEntry_cons]
    by_cases h : k0 = k
    · subst h
      rw [if_pos rfl, lookupStr_cons, lookupStr_cons, if_neg (fun hh => hne hh.symm),
        if_neg (fun hh => hne hh.symm)]
    · rw [if_neg h, lookupStr_cons, lookupStr_cons]
      by_cases h2 : k0 = k'
      · simp [h2]
      · simp only [h2, if_false]
        exact ih

/-! Lemmas about `kindIndex` and group/kind projections. -/

theorem gk_cond_eq (k : GroupVersionKind) (g : GroupKind) :
    (k.group == g.group && k.kind == g.kind) = decide (k.groupKind = g) := by
  cases g with
  | mk gg gk =>
    by_cases h1 : k.group = gg <;> by_cases h2 : k.kind = gk <;>
      simp [GroupVersionKind.groupKind, GroupKind.mk.injEq, h1, h2]

theorem kindIndex_nil (g : GroupKind) : kindIndex [] g = none := rfl

theorem kindIndex_cons (k : GroupVersionKind) (l : List GroupVersionKind)
    (g : GroupKind) :
    kindIndex (k :: l) g =
      if k.groupKind = g then some 0 else (kindIndex l g).map (fun i => i + 1) := by
  by_cases h : k.groupKind = g
  · simp [kindIndex, gk_cond_eq, h]
  · simp [kindIndex, gk_cond_eq, h]

theorem kindIndex_eq_none_iff (l : List GroupVersionKind) (g : GroupKind) :
    kindIndex l g = none ↔ ∀ k ∈ l, k.groupKind ≠ g := by
  induction l with
  | nil => simp [kindIndex_nil]
  | cons k rest ih =>
    rw [kindIndex_cons]
    by_cases h : k.groupKind = g
    · simp [h]
    · simp [h, ih]

theorem kindIndex_some_lt (l : List GroupVersionKind) (g : GroupKind) (i : Nat)
    (h : kindIndex l g = some i) : i < l.length := by
  induction l generalizing i with
  | nil => simp [kindIndex_nil] at h
  | cons k rest ih =>
    rw [kindIndex_cons] at h
    by_cases hk : k.groupKind = g
    · rw [if_pos hk] at h
      cases h
      simp
    · rw [if_neg hk] at h
      cases hx : kindIndex rest g with
      | none => rw [hx] at h; simp at h
      | some j =>
        rw [hx] at h
        simp only [Option.map_some', Option.some.injEq] at h
        have := ih j hx
        simp only [List.length_cons]
        omega

theorem kindIndex_some_gk (l : List GroupVersionKind) (g : GroupKind) (i : Nat)
    (h : kindIndex l g = some i) : ∃ k, l[i]? = some k ∧ k.groupKind = g := by
  induction l generalizing i with
  | nil => simp [kindIndex_nil] at h
  | cons k rest ih =>
    rw [kindIndex_cons] at h
    by_cases hk : k.groupKind = g
    · rw [if_pos hk] at h
      cases h
      exact ⟨k, by simp, hk⟩
    · rw [if_neg hk] at h
      cases hx : kindIndex rest g with
      | none => rw [hx] at h; simp at h
      | some j =>
        rw [hx] at h
        simp only [Option.map_some', Option.some.injEq] at h
        obtain ⟨k', hk', hgk⟩ := ih j hx
        refine ⟨k', ?_, hgk⟩
        rw [← h]
        simpa using hk'

theorem kindIndex_some_min (l : List GroupVersionKind) (g : GroupKind) (i : Nat)
    (h : kindIndex l g = some i) :
    ∀ j k, j < i → l[j]? = some k → k.groupKind ≠ g := by
  induction l generalizing i with
  | nil => simp [kindIndex_nil] at h
  | cons k rest ih =>
    rw [kindIndex_cons] at h
    by_cases hk : k.groupKind = g
    · rw [if_pos hk] at h
      cases h
      intro j k' hj
      omega
    · rw [if_neg hk] at h
      cases hx : kindIndex rest g with
      | none => rw [hx] at h; simp at h
      | some i' =>
        rw [hx] at h
        simp only [Option.map_some', Option.some.injEq] at h
        intro j k' hj hget
        cases j with
        | zero =>
          simp only [List.getElem?_cons_zero, Option.some.injEq] at hget
          subst hget
          exact hk
        | succ j' =>
          simp only [List.getElem?_cons_succ] at hget
          exact ih i' hx j' k' (by omega) hget

theorem kindIndex_congr (l l' : List GroupVersionKind) (g : GroupKind)
    (h : gks l = gks l') : kindIndex l g = kindIndex l' g := by
  induction l generalizing l' with
  | nil =>
    cases l' with
    | nil => rfl
    | cons _ _ => simp [gks] at h
  | cons k rest ih =>
    cases l' with
    | nil => simp [gks] at h
    | cons k' rest' =>
      simp only [gks, List.map_cons, List.cons.injEq] at h
      rw [kindIndex_cons, kindIndex_cons, h.1, ih rest' (by simpa [gks] using h.2)]

theorem kindIndex_append (l₁ l₂ : List GroupVersionKind) (g : GroupKind) :
    kindIndex (l₁ ++ l₂) g =
      (kindIndex l₁ g).or ((kindIndex l₂ g).map (fun i => i + l₁.length)) := by
  induction l₁ with
  | nil =>
    simp [kindIndex_nil]
  | cons k rest ih =>
    by_cases hk : k.groupKind = g
    · simp [kindIndex_cons, hk]
    · simp only [List.cons_append, kindIndex_cons, hk, if_false, ih]
      cases kindIndex rest g with
      | none =>
        cases kindIndex l₂ g with
        | none => simp
        | some j => simp [List.length_cons]; omega
      | some j => simp

theorem kindIndex_getElem_le (l : List GroupVersionKind) (i : Nat)
    (k : GroupVersionKind) (h : l[i]? = some k) :
    ∃ j, j ≤ i ∧ kindIndex l k.groupKind = some j := by
  induction l generalizing i with
  | nil => simp at h
  | cons x rest ih =>
    by_cases hx : x.groupKind = k.groupKind
    · exact ⟨0, Nat.zero_le _, by simp [kindIndex_cons, hx]⟩
    · cases i with
      | zero =>
        simp at h
        subst h
        exact absurd rfl hx
      | succ n =>
        simp only [List.getElem?_cons_succ] at h
        obtain ⟨j, hj, hfind⟩ := ih n h
        exact ⟨j + 1, by omega, by simp [kindIndex_cons, hx, hfind]⟩

theorem gks_append (l₁ l₂ : List GroupVersionKind) :
    gks (l₁ ++ l₂) = gks l₁ ++ gks l₂ := by
  simp [gks]

theorem gks_set (l : List GroupVersionKind) (i : Nat) (k : GroupVersionKind) :
    gks (l.set i k) = (gks l).set i k.groupKind := by
  simp [gks, List.map_set]

theorem mem_gks (l : List GroupVersionKind) (g : GroupKind) :
    g ∈ gks l ↔ ∃ k ∈ l, k.groupKind = g := by
  simp [gks]

theorem gks_length (l : List GroupVersionKind) : (gks l).length = l.length := by
  simp [gks]

/-! Lemmas about `lastWithGK` and `firstDedup`. -/

theorem lastWithGK_nil (g : GroupKind) : lastWithGK [] g = none := rfl

theorem lastWithGK_cons (k : GroupVersionKind) (ks : List GroupVersionKind)
    (g : GroupKind) :
    lastWithGK (k :: ks) g =
      (lastWithGK ks g).or (if k.groupKind = g then some k else none) := by
  unfold lastWithGK
  rw [List.reverse_cons, List.find?_append]
  congr 1
  by_cases h : k.groupKind = g <;> simp [List.find?, h]

theorem lastWithGK_gk (ks : List GroupVersionKind) (g : GroupKind)
    (k : GroupVersionKind) (h : lastWithGK ks g = some k) : k.groupKind = g := by
  have := List.find?_some h
  simpa using this

theorem lastWithGK_mem (ks : List GroupVersionKind) (g : GroupKind)
    (k : GroupVersionKind) (h : lastWithGK ks g = some k) : k ∈ ks := by
  have := List.mem_of_find?_eq_some h
  simpa using this

theorem lastWithGK_eq_none_iff (ks : List GroupVersionKind) (g : GroupKind) :
    lastWithGK ks g = none ↔ ∀ k ∈ ks, k.groupKind ≠ g := by
  unfold lastWithGK
  rw [List.find?_eq_none]
  constructor
  · intro h k hk
    have := h k (by simpa using hk)
    simpa using this
  · intro h k hk
    have := h k (by simpa using hk)
    simpa using this

theorem lastWithGK_isSome (ks : List GroupVersionKind) (g : GroupKind)
    (h : g ∈ gks ks) : ∃ k, lastWithGK ks g = some k := by
  cases hx : lastWithGK ks g with
  | some k => exact ⟨k, rfl⟩
  | none =>
    rw [lastWithGK_eq_none_iff] at hx
    obtain ⟨k, hk, hgk⟩ := (mem_gks ks g).1 h
    exact absurd hgk (hx k hk)

theorem lastWithGK_of_nodup (ks : List GroupVersionKind) (k : GroupVersionKind)
    (hnd : (gks ks).Nodup) (hk : k ∈ ks) :
    lastWithGK ks k.groupKind = some k := by
  induction ks with
  | nil => simp at hk
  | cons x rest ih =>
    rw [lastWithGK_cons]
    simp only [gks, List.map_cons, List.nodup_cons] at hnd
    rcases List.mem_cons.1 hk with h | h
    · subst h
      have hnone : lastWithGK rest k.groupKind = none := by
        rw [lastWithGK_eq_none_iff]
        intro k' hk' hgk
        exact hnd.1 (by rw [← hgk]; exact List.mem_map_of_mem _ hk')
      simp [hnone]
    · rw [ih (by simpa [gks] using hnd.2) h]
      simp

theorem firstDedup_nil : firstDedup [] = [] := by
  rw [firstDedup]

theorem firstDedup_cons (g : GroupKind) (rest : List GroupKind) :
    firstDedup (g :: rest) =
      g :: firstDedup (rest.filter (fun h => decide (h ≠ g))) := by
  rw [firstDedup]

theorem filter_swap {α : Type} (l : List α) (p q : α → Bool) :
    (l.filter p).filter q = (l.filter q).filter p := by
  rw [List.filter_filter, List.filter_filter]
  apply List.filter_congr
  intro x _
  rw [Bool.and_comm]

theorem mem_firstDedup (l : List GroupKind) (a : GroupKind) :
    a ∈ firstDedup l ↔ a ∈ l := by
  induction l using firstDedup.induct with
  | case1 => rw [firstDedup_nil]
  | case2 g rest ih =>
    rw [firstDedup_cons]
    by_cases h : a = g
    · simp [h]
    · simp only [List.mem_cons, h, false_or]
      rw [ih]
      simp [h]

theorem firstDedup_nodup (l : List GroupKind) : (firstDedup l).Nodup := by
  induction l using firstDedup.induct with
  | case1 => rw [firstDedup_nil]; exact List.nodup_nil
  | case2 g rest ih =>
    rw [firstDedup_cons]
    refine List.nodup_cons.2 ⟨?_, ih⟩
    rw [mem_firstDedup]
    simp

theorem firstDedup_filter_comm (l : List GroupKind) (p : GroupKind → Bool) :
    firstDedup (l.filter p) = (firstDedup l).filter p := by
  induction l using firstDedup.induct with
  | case1 => simp [firstDedup_nil]
  | case2 g rest ih =>
    rw [firstDedup_cons, List.filter_cons, List.filter_cons]
    by_cases h : p g
    · rw [if_pos h, if_pos h, firstDedup_cons]
      congr 1
      rw [filter_swap]
      exact ih
    · rw [if_neg h, if_neg h]
      have hno : rest.filter p = (rest.filter (fun b => decide (b ≠ g))).filter p := by
        rw [filter_swap]
        apply Eq.symm
        apply List.filter_eq_self.2
        intro x hx
        rcases List.mem_filter.1 hx with ⟨_, hpx⟩
        by_cases hxg : x = g
        · subst hxg
          exact absurd hpx (by simp [h])
        · simp [hxg]
      rw [hno, ih]

/-! Characterization of `EnsureKinds` (and of the kind-tracking loop). -/

theorem gvk_ext (k k' : GroupVersionKind) (hg : k.groupKind = k'.groupKind)
    (hv : k.version = k'.version) : k = k' := by
  cases k
  cases k'
  simp only [GroupVersionKind.groupKind, GroupKind.mk.injEq] at hg
  simp_all

theorem lastWithGK_cons_ne (k : GroupVersionKind) (ks : List GroupVersionKind)
    (g : GroupKind) (hne : k.groupKind ≠ g) :
    lastWithGK (k :: ks) g = lastWithGK ks g := by
  rw [lastWithGK_cons, if_neg hne, Option.or_none]

theorem lastWithGK_cons_eq (k : GroupVersionKind) (ks : List GroupVersionKind)
    (g : GroupKind) (heq : k.groupKind = g) :
    lastWithGK (k :: ks) g = (lastWithGK ks g).or (some k) := by
  rw [lastWithGK_cons, if_pos heq]

theorem getD_of_getElem? {α : Type} [Inhabited α] (l : List α) (i : Nat) (a : α)
    (h : l[i]? = some a) : l.getD i default = a := by
  rw [List.getD_eq_getElem?_getD, h, Option.getD_some]

theorem ek_cons_none (s : List GroupVersionKind) (k : GroupVersionKind)
    (ks : List GroupVersionKind) (b : Bool) (h : kindIndex s k.groupKind = none) :
    ensureKindsAux s b (k :: ks) = ensureKindsAux (s ++ [k]) true ks := by
  simp only [ensureKindsAux, h]

theorem ek_cons_some (s : List GroupVersionKind) (k : GroupVersionKind)
    (ks : List GroupVersionKind) (b : Bool) (i : Nat)
    (h : kindIndex s k.groupKind = some i) :
    ensureKindsAux s b (k :: ks) =
      if (s.getD i default).version = k.version then ensureKindsAux s b ks
      else ensureKindsAux (s.set i k) true ks := by
  simp only [ensureKindsAux, h]
  by_cases hv : (s.getD i default).version = k.version
  · rw [if_neg (by simpa using hv), if_pos hv]
  · rw [if_pos hv, if_neg hv]

theorem set_self_of_kindIndex (s : List GroupVersionKind) (g : GroupKind) (i : Nat)
    (k : GroupVersionKind) (h : kindIndex s g = some i) (hg : k.groupKind = g)
    (hv : (s.getD i default).version = k.version) : s.set i k = s := by
  obtain ⟨k₀, hk₀, hgk⟩ := kindIndex_some_gk s g i h
  have hD : s.getD i default = k₀ := getD_of_getElem? s i k₀ hk₀
  have : k₀ = k := by
    apply gvk_ext
    · rw [hgk, hg]
    · rw [← hD, hv]
  rw [← this]
  exact set_getElem_self s i k₀ hk₀

theorem ek_fst_indep (ks : List GroupVersionKind) :
    ∀ (s : List GroupVersionKind) (b b' : Bool),
    (ensureKindsAux s b ks).1 = (ensureKindsAux s b' ks).1 := by
  induction ks with
  | nil => intro s b b'; rfl
  | cons k ks ih =>
    intro s b b'
    cases hx : kindIndex s k.groupKind with
    | none => rw [ek_cons_none s k ks b hx, ek_cons_none s k ks b' hx]
    | some i =>
      rw [ek_cons_some s k ks b i hx, ek_cons_some s k ks b' i hx]
      by_cases hv : (s.getD i default).version = k.version
      · rw [if_pos hv, if_pos hv]; exact ih s b b'
      · rw [if_neg hv, if_neg hv]

theorem ek_snd_true (ks : List GroupVersionKind) :
    ∀ (s : List GroupVersionKind), (ensureKindsAux s true ks).2 = true := by
  induction ks with
  | nil => intro s; rfl
  | cons k ks ih =>
    intro s
    cases hx : kindIndex s k.groupKind with
    | none => rw [ek_cons_none s k ks true hx]; exact ih _
    | some i =>
      rw [ek_cons_some s k ks true i hx]
      by_cases hv : (s.getD i default).version = k.version
      · rw [if_pos hv]; exact ih s
      · rw [if_neg hv]; exact ih _

theorem ek_length_mono (ks : List GroupVersionKind) :
    ∀ (s : List GroupVersionKind) (b : Bool),
    s.length ≤ (ensureKindsAux s b ks).1.length := by
  induction ks with
  | nil => intro s b; exact Nat.le_refl _
  | cons k ks ih =>
    intro s b
    cases hx : kindIndex s k.groupKind with
    | none =>
      rw [ek_cons_none s k ks b hx]
      calc s.length ≤ (s ++ [k]).length := by simp
        _ ≤ _ := ih _ _
    | some i =>
      rw [ek_cons_some s k ks b i hx]
      by_cases hv : (s.getD i default).version = k.version
      · rw [if_pos hv]; exact ih s b
      · rw [if_neg hv]
        have := ih (s.set i k) true
        simpa using this

theorem markKinds_eq_ek (ks : List GroupVersionKind) :
    ∀ (s : List GroupVersionKind) (b : Bool),
    markKinds s ks = (ensureKindsAux s b ks).1 := by
  induction ks with
  | nil => intro s b; rfl
  | cons k ks ih =>
    intro s b
    cases hx : kindIndex s k.groupKind with
    | none =>
      rw [ek_cons_none s k ks b hx]
      simp only [markKinds, hx]
      exact ih _ true
    | some i =>
      rw [ek_cons_some s k ks b i hx]
      simp only [markKinds, hx]
      by_cases hv : (s.getD i default).version = k.version
      · rw [if_pos hv]
        have hset : s.set i k = s := by
          obtain ⟨k₀, hk₀, hgk⟩ := kindIndex_some_gk s k.groupKind i hx
          exact set_self_of_kindIndex s k.groupKind i k hx rfl hv
        rw [hset] at *
        exact ih s b
      · rw [if_neg hv]
        exact ih _ true

theorem gks_set_self (s : List GroupVersionKind) (i : Nat) (k : GroupVersionKind)
    (k₀ : GroupVersionKind) (h1 : s[i]? = some k₀)
    (h2 : k₀.groupKind = k.groupKind) : gks (s.set i k) = gks s := by
  rw [gks_set]
  apply set_getElem_self
  rw [gks]
  rw [List.getElem?_map, h1]
  simp [h2]

theorem ek_getElem (ks : List GroupVersionKind) :
    ∀ (s : List GroupVersionKind) (b : Bool) (i : Nat) (k₀ : GroupVersionKind),
    s[i]? = some k₀ →
    ((ensureKindsAux s b ks).1)[i]? =
      some (if kindIndex s k₀.groupKind = some i
            then (lastWithGK ks k₀.groupKind).getD k₀
            else k₀) := by
  induction ks with
  | nil =>
    intro s b i k₀ h
    rw [lastWithGK_nil]
    simp only [ensureKindsAux, Option.getD_none, ite_self]
    exact h
  | cons k ks ih =>
    intro s b i k₀ h
    have hi : i < s.length := by
      by_contra hge
      rw [List.getElem?_eq_none (by omega)] at h
      exact Option.noConfusion h
    cases hx : kindIndex s k.groupKind with
    | none =>
      rw [ek_cons_none s k ks b hx]
      have h' : (s ++ [k])[i]? = some k₀ := by
        rw [List.getElem?_append_left hi]
        exact h
      rw [ih (s ++ [k]) true i k₀ h']
      obtain ⟨j, hj, hfind⟩ := kindIndex_getElem_le s i k₀ h
      have hIdx : kindIndex (s ++ [k]) k₀.groupKind = some j := by
        rw [kindIndex_append, hfind]
        rfl
      rw [hIdx, hfind]
      congr 1
      by_cases hcond : j = i
      · subst hcond
        rw [if_pos rfl, if_pos rfl]
        have hne : k.groupKind ≠ k₀.groupKind := by
          intro heq
          rw [kindIndex_eq_none_iff] at hx
          obtain ⟨kj, hkj, hgkj⟩ := kindIndex_some_gk s k₀.groupKind j hfind
          exact hx kj (by
            have := List.getElem?_eq_some.1 hkj
            obtain ⟨hh, hv⟩ := this
            rw [← hv]
            exact List.getElem_mem hh) (by rw [hgkj, ← heq])
        rw [lastWithGK_cons_ne k ks k₀.groupKind hne]
      · rw [if_neg (by simpa using hcond), if_neg (by simpa using hcond)]
    | some i₀ =>
      obtain ⟨ki, hki, hgki⟩ := kindIndex_some_gk s k.groupKind i₀ hx
      rw [ek_cons_some s k ks b i₀ hx]
      by_cases hv : (s.getD i₀ default).version = k.version
      · rw [if_pos hv]
        have hset : s.set i₀ k = s := set_self_of_kindIndex s k.groupKind i₀ k hx rfl hv
        rw [ih s b i k₀ h]
        congr 1
        by_cases hcond : kindIndex s k₀.groupKind = some i
        · rw [if_pos hcond, if_pos hcond]
          by_cases hgg : k.groupKind = k₀.groupKind
          · rw [lastWithGK_cons_eq k ks k₀.groupKind hgg]
            have hii : i = i₀ := by
              rw [hgg] at hx
              rw [hcond] at hx
              exact Option.some.inj hx
            subst hii
            have hk₀ : s.getD i default = k₀ := getD_of_getElem? s i k₀ h
            have hkk : k₀ = k := by
              apply gvk_ext
              · exact hgg.symm
              · rw [← hk₀, hv]
            cases hy : lastWithGK ks k₀.groupKind with
            | some x => simp [Option.or]
            | none => simp [Option.or, hkk]
          · rw [lastWithGK_cons_ne k ks k₀.groupKind hgg]
        · rw [if_neg hcond, if_neg hcond]
      · rw [if_neg hv]
        have hgks : gks (s.set i₀ k) = gks s := gks_set_self s i₀ k ki hki (by rw [hgki])
        have hlen : (s.set i₀ k).length = s.length := by simp
        by_cases hii : i = i₀
        · subst hii
          have h2 : (s.set i k)[i]? = some k := by
            rw [List.getElem?_set]
            simp [hi]
          rw [ih (s.set i k) true i k h2]
          have hcondL : kindIndex (s.set i k) k.groupKind = some i := by
            rw [kindIndex_congr (s.set i k) s k.groupKind hgks]
            exact hx
          rw [if_pos hcondL]
          have hgk₀ : k₀ = ki := by
            rw [h] at hki
            exact Option.some.inj hki
          subst hgk₀
          have hcondR : kindIndex s k₀.groupKind = some i := by rw [hgki]; exact hx
          rw [if_pos hcondR]
          rw [hgki]
          rw [lastWithGK_cons_eq k ks k.groupKind rfl]
          cases hy : lastWithGK ks k.groupKind with
          | some x => simp [Option.or]
          | none => simp [Option.or]
        · have h2 : (s.set i₀ k)[i]? = some k₀ := by
            rw [List.getElem?_set, if_neg (fun e => hii e.symm)]
            exact h
          rw [ih (s.set i₀ k) true i k₀ h2]
          have hcondEq : kindIndex (s.set i₀ k) k₀.groupKind = kindIndex s k₀.groupKind := by
            exact kindIndex_congr _ _ _ hgks
          rw [hcondEq]
          congr 1
          by_cases hcond : kindIndex s k₀.groupKind = some i
          · rw [if_pos hcond, if_pos hcond]
            have hgg : k.groupKind ≠ k₀.groupKind := by
              intro heq
              rw [← heq] at hcond
              rw [hcond] at hx
              exact hii (Option.some.inj hx)
            rw [lastWithGK_cons_ne k ks k₀.groupKind hgg]
          · rw [if_neg hcond, if_neg hcond]

theorem or_some_getD {α : Type} (o : Option α) (a : α) :
    o.or (some a) = some (o.getD a) := by
  cases o <;> simp

theorem newGKs_cons_none (s : List GroupVersionKind) (k : GroupVersionKind)
    (ks : List GroupVersionKind) (h : kindIndex s k.groupKind = none) :
    newGKs s (k :: ks) = k.groupKind :: newGKs (s ++ [k]) ks := by
  have hnm : k.groupKind ∉ gks s := by
    rw [kindIndex_eq_none_iff] at h
    intro hm
    obtain ⟨k', hk', hgk⟩ := (mem_gks s k.groupKind).1 hm
    exact h k' hk' hgk
  unfold newGKs
  rw [show gks (k :: ks) = k.groupKind :: gks ks by simp [gks]]
  rw [List.filter_cons, if_pos (by simpa using hnm), firstDedup_cons]
  congr 1
  rw [List.filter_filter]
  apply congrArg firstDedup
  apply List.filter_congr
  intro g _
  rw [gks_append]
  show (decide (g ≠ k.groupKind) && !decide (g ∈ gks s)) = !decide (g ∈ gks s ++ gks [k])
  by_cases h1 : g ∈ gks s <;> by_cases h2 : g = k.groupKind <;>
    simp [h1, h2, gks, List.mem_append]

theorem newGKs_cons_mem (s : List GroupVersionKind) (k : GroupVersionKind)
    (ks : List GroupVersionKind) (h : k.groupKind ∈ gks s) :
    newGKs s (k :: ks) = newGKs s ks := by
  unfold newGKs
  rw [show gks (k :: ks) = k.groupKind :: gks ks by simp [gks]]
  rw [List.filter_cons, if_neg (by simpa using h)]

theorem newGKs_congr (s s' ks : List GroupVersionKind) (h : gks s = gks s') :
    newGKs s ks = newGKs s' ks := by
  unfold newGKs
  rw [h]

theorem mem_newGKs (s ks : List GroupVersionKind) (g : GroupKind)
    (h : g ∈ newGKs s ks) : g ∈ gks ks ∧ g ∉ gks s := by
  unfold newGKs at h
  rw [mem_firstDedup] at h
  rcases List.mem_filter.1 h with ⟨h1, h2⟩
  exact ⟨h1, by simpa using h2⟩

theorem ek_drop (ks : List GroupVersionKind) :
    ∀ (s : List GroupVersionKind) (b : Bool),
    (ensureKindsAux s b ks).1.drop s.length = (newGKs s ks).filterMap (lastWithGK ks) := by
  induction ks with
  | nil =>
    intro s b
    show s.drop s.length = (newGKs s []).filterMap (lastWithGK [])
    rw [List.drop_length]
    unfold newGKs
    simp [gks, firstDedup_nil]
  | cons k ks ih =>
    intro s b
    cases hx : kindIndex s k.groupKind with
    | none =>
      rw [ek_cons_none s k ks b hx, newGKs_cons_none s k ks hx]
      rw [List.filterMap_cons]
      rw [show lastWithGK (k :: ks) k.groupKind = some ((lastWithGK ks k.groupKind).getD k) by
        rw [lastWithGK_cons_eq k ks k.groupKind rfl, or_some_getD]]
      have hlen : s.length < (ensureKindsAux (s ++ [k]) true ks).1.length := by
        have := ek_length_mono ks (s ++ [k]) true
        simp at this
        omega
      rw [List.drop_eq_getElem_cons hlen]
      congr 1
      · have hget : (s ++ [k])[s.length]? = some k := by
          rw [List.getElem?_append_right (Nat.le_refl _)]
          simp
        have hcond : kindIndex (s ++ [k]) k.groupKind = some s.length := by
          rw [kindIndex_append, hx, Option.none_or]
          rw [show kindIndex [k] k.groupKind = some 0 by
            rw [kindIndex_cons, if_pos rfl]]
          simp
        have := ek_getElem ks (s ++ [k]) true s.length k hget
        rw [hcond, if_pos rfl] at this
        have hlt := hlen
        rw [List.getElem?_eq_getElem hlt] at this
        exact Option.some.inj this
      · have hdrop := ih (s ++ [k]) true
        rw [show (s ++ [k]).length = s.length + 1 by simp] at hdrop
        rw [hdrop]
        apply List.filterMap_congr
        intro g hg
        obtain ⟨hin, hout⟩ := mem_newGKs (s ++ [k]) ks g hg
        have hne : k.groupKind ≠ g := by
          intro heq
          apply hout
          rw [gks_append, ← heq]
          simp [gks]
        rw [lastWithGK_cons_ne k ks g hne]
    | some i₀ =>
      obtain ⟨ki, hki, hgki⟩ := kindIndex_some_gk s k.groupKind i₀ hx
      have hmem : k.groupKind ∈ gks s := by
        rw [mem_gks]
        exact ⟨ki, by
          have := List.getElem?_eq_some.1 hki
          obtain ⟨hh, hv⟩ := this
          rw [← hv]
          exact List.getElem_mem hh, hgki⟩
      have hcongrMap : ∀ (l : List GroupVersionKind), gks l = gks s →
          (newGKs l ks).filterMap (lastWithGK (k :: ks)) =
          (newGKs l ks).filterMap (lastWithGK ks) := by
        intro l hl
        apply List.filterMap_congr
        intro g hg
        obtain ⟨hin, hout⟩ := mem_newGKs l ks g hg
        have hne : k.groupKind ≠ g := by
          intro heq
          rw [hl] at hout
          exact hout (heq ▸ hmem)
        rw [lastWithGK_cons_ne k ks g hne]
      rw [ek_cons_some s k ks b i₀ hx]
      by_cases hv : (s.getD i₀ default).version = k.version
      · rw [if_pos hv, ih s b, newGKs_cons_mem s k ks hmem]
        exact (hcongrMap s rfl).symm
      · rw [if_neg hv]
        have hgks : gks (s.set i₀ k) = gks s := gks_set_self s i₀ k ki hki (by rw [hgki])
        have hlen : (s.set i₀ k).length = s.length := by simp
        rw [show s.length = (s.set i₀ k).length by rw [hlen]]
        rw [ih (s.set i₀ k) true, newGKs_cons_mem s k ks hmem]
        rw [newGKs_congr (s.set i₀ k) s ks hgks]
        exact (hcongrMap s rfl).symm

theorem kindIndex_of_mem_nodup (s : List GroupVersionKind) (k : GroupVersionKind)
    (hnd : (gks s).Nodup) (hk : k ∈ s) :
    ∃ i, kindIndex s k.groupKind = some i ∧ s[i]? = some k := by
  induction s with
  | nil => simp at hk
  | cons x rest ih =>
    simp only [gks, List.map_cons, List.nodup_cons] at hnd
    rcases List.mem_cons.1 hk with h | h
    · subst h
      exact ⟨0, by rw [kindIndex_cons, if_pos rfl], by simp⟩
    · have hne : x.groupKind ≠ k.groupKind := by
        intro heq
        exact hnd.1 (by rw [heq]; exact List.mem_map_of_mem _ h)
      obtain ⟨i, hfind, hget⟩ := ih (by simpa [gks] using hnd.2) h
      exact ⟨i + 1, by rw [kindIndex_cons, if_neg hne, hfind]; rfl, by simpa using hget⟩

theorem ek_changed (ks : List GroupVersionKind) :
    ∀ (s : List GroupVersionKind),
    (ensureKindsAux s false ks).2 = false ↔
      ∀ k ∈ ks, ∃ i k', kindIndex s k.groupKind = some i ∧ s[i]? = some k' ∧
        k'.version = k.version := by
  induction ks with
  | nil =>
    intro s
    simp [ensureKindsAux]
  | cons k ks ih =>
    intro s
    cases hx : kindIndex s k.groupKind with
    | none =>
      rw [ek_cons_none s k ks false hx]
      apply iff_of_false
      · rw [ek_snd_true]
        simp
      · intro hall
        obtain ⟨i, k', h1, _, _⟩ := hall k (List.mem_cons_self k ks)
        rw [hx] at h1
        exact Option.noConfusion h1
    | some i₀ =>
      obtain ⟨ki, hki, hgki⟩ := kindIndex_some_gk s k.groupKind i₀ hx
      have hD : s.getD i₀ default = ki := getD_of_getElem? s i₀ ki hki
      rw [ek_cons_some s k ks false i₀ hx]
      by_cases hv : (s.getD i₀ default).version = k.version
      · rw [if_pos hv, ih s, List.forall_mem_cons]
        exact ⟨fun h => ⟨⟨i₀, ki, hx, hki, by rw [← hD, hv]⟩, h⟩, fun h => h.2⟩
      · rw [if_neg hv]
        apply iff_of_false
        · rw [ek_snd_true]
          simp
        · intro hall
          obtain ⟨i, k', h1, h2, h3⟩ := hall k (List.mem_cons_self k ks)
          rw [hx] at h1
          have : i = i₀ := (Option.some.inj h1).symm
          subst this
          rw [hki] at h2
          have : ki = k' := Option.some.inj h2
          subst this
          rw [hD] at hv
          exact hv h3

theorem ek_changed_nodup (s ks : List GroupVersionKind) (hnd : (gks s).Nodup) :
    (ensureKindsAux s false ks).2 = false ↔ ∀ k ∈ ks, k ∈ s := by
  rw [ek_changed]
  constructor
  · intro h k hk
    obtain ⟨i, k', h1, h2, h3⟩ := h k hk
    obtain ⟨kk, hkk, hgkk⟩ := kindIndex_some_gk s k.groupKind i h1
    rw [h2] at hkk
    have hk'k : k' = kk := Option.some.inj hkk
    subst hk'k
    have : k' = k := gvk_ext k' k hgkk h3
    subst this
    obtain ⟨hh, hval⟩ := List.getElem?_eq_some.1 h2
    rw [← hval]
    exact List.getElem_mem hh
  · intro h k hk
    obtain ⟨i, hfind, hget⟩ := kindIndex_of_mem_nodup s k hnd (h k hk)
    exact ⟨i, k, hfind, hget, rfl⟩

theorem ek_nodup (ks : List GroupVersionKind) :
    ∀ (s : List GroupVersionKind) (b : Bool), (gks s).Nodup →
    (gks (ensureKindsAux s b ks).1).Nodup := by
  induction ks with
  | nil => intro s b h; exact h
  | cons k ks ih =>
    intro s b h
    cases hx : kindIndex s k.groupKind with
    | none =>
      rw [ek_cons_none s k ks b hx]
      apply ih
      rw [gks_append]
      rw [List.nodup_append]
      refine ⟨h, by simp [gks], ?_⟩
      intro g hg hg'
      rw [kindIndex_eq_none_iff] at hx
      simp only [gks, List.map_cons, List.map_nil, List.mem_singleton] at hg'
      obtain ⟨k', hk', hgk⟩ := (mem_gks s g).1 hg
      exact hx k' hk' (by rw [hgk, hg'])
    | some i₀ =>
      obtain ⟨ki, hki, hgki⟩ := kindIndex_some_gk s k.groupKind i₀ hx
      rw [ek_cons_some s k ks b i₀ hx]
      by_cases hv : (s.getD i₀ default).version = k.version
      · rw [if_pos hv]
        exact ih s b h
      · rw [if_neg hv]
        apply ih
        rw [gks_set_self s i₀ k ki hki (by rw [hgki])]
        exact h

/-! Lemmas about the state accessor and the storage operations. -/

theorem getComposite_setComposite (p : ParentObj) (s : State) :
    GetCompositeState (SetCompositeState p s) = .ok s := by
  unfold GetCompositeState SetCompositeState
  simp only [lookupStr_setEntry_self]

theorem getComposite_updateParent (p : ParentObj) :
    GetCompositeState (updateParent p) = GetCompositeState p := rfl

theorem uid_setComposite (p : ParentObj) (s : State) :
    (SetCompositeState p s).uid = p.uid := rfl

theorem uid_updateParent (p : ParentObj) : (updateParent p).uid = p.uid := rfl

theorem findObj_some_props (c : Cluster) (ch : Obj) (s : Obj)
    (hf : findObj c ch = some s) : s ∈ c.objs ∧ objKey s = objKey ch := by
  refine ⟨List.mem_of_find?_eq_some hf, ?_⟩
  have := List.find?_some hf
  simp only [Bool.and_eq_true, beq_iff_eq] at this
  unfold objKey
  rw [this.1.1, this.1.2, this.2]

theorem findObj_none_keys (c : Cluster) (ch : Obj) (hf : findObj c ch = none) :
    ∀ s ∈ c.objs, objKey s ≠ objKey ch := by
  intro s hs heq
  rw [findObj, List.find?_eq_none] at hf
  apply hf s hs
  unfold objKey at heq
  simp only [Prod.mk.injEq] at heq
  simp [heq.1, heq.2.1, heq.2.2]

theorem applyPatch_noop (c : Cluster) (ch : Obj) (s : Obj)
    (hf : findObj c ch = some s) (heq : appliedFields s = appliedFields ch) :
    applyPatch c ch = (s, c) := by
  unfold applyPatch
  rw [hf]
  simp [heq]

theorem applyPatch_mem_uid (c : Cluster) (ch : Obj) (ob : Obj)
    (hkeys : (c.objs.map objKey).Nodup) (hob : ob ∈ c.objs) :
    ∃ ob' ∈ (applyPatch c ch).2.objs, ob'.uid = ob.uid := by
  unfold applyPatch
  cases hf : findObj c ch with
  | some s =>
    by_cases heq : appliedFields s = appliedFields ch
    · exact ⟨ob, by simp [heq, hob]⟩
    · obtain ⟨hsm, hsk⟩ := findObj_some_props c ch s hf
      simp only [heq, if_neg heq]
      refine ⟨if objKey ob = objKey s then { s with labels := ch.labels, ownerUID := ch.ownerUID, payload := ch.payload, rv := s.rv + 1 } else ob, ?_, ?_⟩
      · unfold replaceByKey
        exact List.mem_map_of_mem _ hob
      · by_cases hk : objKey ob = objKey s
        · rw [if_pos hk]
          have : ob = s := List.inj_on_of_nodup_map hkeys hob hsm hk
          rw [this]
        · rw [if_neg hk]
  | none =>
    exact ⟨ob, by simp [hob]⟩

theorem applyPatch_replace (c : Cluster) (ch : Obj) (s : Obj)
    (hf : findObj c ch = some s) (hne : appliedFields s ≠ appliedFields ch) :
    applyPatch c ch = ({ s with labels := ch.labels, ownerUID := ch.ownerUID, payload := ch.payload, rv := s.rv + 1 }, { c with objs := replaceByKey c.objs (objKey s) { s with labels := ch.labels, ownerUID := ch.ownerUID, payload := ch.payload, rv := s.rv + 1 } }) := by
  unfold applyPatch
  rw [hf]
  simp [hne]

theorem applyPatch_create (c : Cluster) (ch : Obj) (hf : findObj c ch = none) :
    applyPatch c ch = ({ ch with uid := c.nextUID, rv := 1 }, { c with objs := c.objs ++ [{ ch with uid := c.nextUID, rv := 1 }], nextUID := c.nextUID + 1 }) := by
  unfold applyPatch
  rw [hf]

theorem replaceByKey_map_key_self (objs : List Obj) (s s' : Obj)
    (hkey : objKey s' = objKey s) :
    (replaceByKey objs (objKey s) s').map objKey = objs.map objKey := by
  unfold replaceByKey
  rw [List.map_map]
  apply List.map_congr_left
  intro a _
  simp only [Function.comp_apply]
  by_cases hk : objKey a = objKey s
  · rw [if_pos hk, hkey, hk]
  · rw [if_neg hk]

theorem replaceByKey_map_uid (objs : List Obj) (s s' : Obj)
    (hnk : (objs.map objKey).Nodup) (hsm : s ∈ objs) (huid : s'.uid = s.uid) :
    (replaceByKey objs (objKey s) s').map (fun o => o.uid) = objs.map (fun o => o.uid) := by
  unfold replaceByKey
  rw [List.map_map]
  apply List.map_congr_left
  intro a ha
  simp only [Function.comp_apply]
  by_cases hk : objKey a = objKey s
  · rw [if_pos hk]
    have : a = s := List.inj_on_of_nodup_map hnk ha hsm hk
    rw [huid, this]
  · rw [if_neg hk]

theorem applyPatch_wf (c : Cluster) (ch : Obj) (hwf : c.WellFormed) :
    (applyPatch c ch).2.WellFormed := by
  obtain ⟨hnu, hbound, hnk⟩ := hwf
  cases hf : findObj c ch with
  | some s =>
    by_cases heq : appliedFields s = appliedFields ch
    · rw [applyPatch_noop c ch s hf heq]
      exact ⟨hnu, hbound, hnk⟩
    · obtain ⟨hsm, hsk⟩ := findObj_some_props c ch s hf
      rw [applyPatch_replace c ch s hf heq]
      dsimp only
      refine ⟨?_, ?_, ?_⟩
      · rw [replaceByKey_map_uid c.objs s { s with labels := ch.labels, ownerUID := ch.ownerUID, payload := ch.payload, rv := s.rv + 1 } hnk hsm rfl]
        exact hnu
      · intro o ho
        rcases List.mem_map.1 ho with ⟨a, ha, hav⟩
        by_cases hk : objKey a = objKey s
        · rw [if_pos hk] at hav
          rw [← hav]
          exact hbound s hsm
        · rw [if_neg hk] at hav
          rw [← hav]
          exact hbound a ha
      · rw [replaceByKey_map_key_self c.objs s { s with labels := ch.labels, ownerUID := ch.ownerUID, payload := ch.payload, rv := s.rv + 1 } rfl]
        exact hnk
  | none =>
    rw [applyPatch_create c ch hf]
    dsimp only
    refine ⟨?_, ?_, ?_⟩
    · rw [List.map_append, List.nodup_append]
      refine ⟨hnu, by simp, ?_⟩
      intro u hu hu2
      simp only [List.map_cons, List.map_nil, List.mem_singleton] at hu2
      subst hu2
      rcases List.mem_map.1 hu with ⟨a, ha, hav⟩
      have hb := hbound a ha
      have hav2 : a.uid = c.nextUID := hav
      exact absurd hav2 (Nat.ne_of_lt hb)
    · intro ob hob
      rcases List.mem_append.1 hob with h | h
      · have hb := hbound ob h
        exact Nat.lt_succ_of_lt hb
      · simp only [List.mem_singleton] at h
        subst h
        simp
    · rw [List.map_append, List.nodup_append]
      refine ⟨hnk, by simp, ?_⟩
      intro kq hkq hkq2
      simp only [List.map_cons, List.map_nil, List.mem_singleton] at hkq2
      rcases List.mem_map.1 hkq with ⟨a, ha, hav⟩
      have hne := findObj_none_keys c ch hf a ha
      apply hne
      rw [hav, hkq2]
      rfl

theorem applyPatch_result_mem (c : Cluster) (ch : Obj) :
    (applyPatch c ch).1 ∈ (applyPatch c ch).2.objs ∧ (applyPatch c ch).1.gvk = ch.gvk := by
  cases hf : findObj c ch with
  | some s =>
    obtain ⟨hsm, hsk⟩ := findObj_some_props c ch s hf
    have hgvk : s.gvk = ch.gvk := congrArg Prod.fst hsk
    by_cases heq : appliedFields s = appliedFields ch
    · rw [applyPatch_noop c ch s hf heq]
      exact ⟨hsm, hgvk⟩
    · rw [applyPatch_replace c ch s hf heq]
      dsimp only
      constructor
      · unfold replaceByKey
        exact List.mem_map.2 ⟨s, hsm, by rw [if_pos rfl]⟩
      · exact hgvk
  | none =>
    rw [applyPatch_create c ch hf]
    dsimp only
    exact ⟨List.mem_append.2 (Or.inr (List.mem_singleton.2 rfl)), rfl⟩

theorem deleteObj_objs (c : Cluster) (u : UID) :
    (deleteObj c u).objs = c.objs.filter (fun ob => !(ob.uid == u)) := rfl

theorem deleteObj_wf (c : Cluster) (u : UID) (hwf : c.WellFormed) :
    (deleteObj c u).WellFormed := by
  obtain ⟨hnu, hbound, hnk⟩ := hwf
  refine ⟨?_, ?_, ?_⟩
  · exact List.Nodup.sublist (List.Sublist.map _ (List.filter_sublist _)) hnu
  · intro o ho
    rw [deleteObj_objs] at ho
    exact hbound o (List.mem_filter.1 ho).1
  · exact List.Nodup.sublist (List.Sublist.map _ (List.filter_sublist _)) hnk

/-! Characterization of the child-application loop. -/

theorem tinyAppend_none (pe : Option GoError) : tinyAppend pe none = pe := by
  cases pe with
  | none => rfl
  | some e => cases e <;> rfl

theorem assertChildrenAux_cons (o : Oracles) (r : Reconciler) (c : Cluster)
    (pe : Option GoError) (ch : Obj) (rest : List Obj) :
    assertChildrenAux o r c pe (ch :: rest) =
      (match (match o.patchFail ch with
              | some e => ((ch, c, tinyAppend pe (some e)) : Obj × Cluster × Option GoError)
              | none => ((applyPatch c ch).1, (applyPatch c ch).2, pe)) with
       | (res, c', passErr') =>
         if o.accessFail ch then
           (r, c', some (GoError.permanent (GoError.msg "failed to access child metadata")))
         else
           assertChildrenAux o { r with assertedUIDs := r.assertedUIDs ++ [res.uid] }
             c' passErr' rest) := by
  rw [assertChildrenAux]

theorem assertChildrenAux_char (o : Oracles) (children : List Obj) :
    ∀ (r : Reconciler) (c : Cluster) (pe : Option GoError),
    (∀ ch ∈ children, o.accessFail ch = false) →
    assertChildrenAux o r c pe children =
      ({ r with assertedUIDs := r.assertedUIDs ++ collectPatched o c children },
        applyFold o c children,
        foldAppend pe (children.map (fun ch => o.patchFail ch))) := by
  induction children with
  | nil =>
    intro r c pe _
    simp [assertChildrenAux, collectPatched, applyFold, foldAppend]
  | cons ch rest ih =>
    intro r c pe h
    have hacc : o.accessFail ch = false := h ch (List.mem_cons_self ch rest)
    rw [assertChildrenAux_cons]
    cases hp : o.patchFail ch with
    | some e =>
      dsimp only
      rw [if_neg (by simp [hacc])]
      rw [ih _ _ _ (fun x hx => h x (List.mem_cons_of_mem ch hx))]
      simp [collectPatched, applyFold, foldAppend, hp, tinyAppend_none]
    | none =>
      dsimp only
      rw [if_neg (by simp [hacc])]
      rw [ih _ _ _ (fun x hx => h x (List.mem_cons_of_mem ch hx))]
      simp [collectPatched, applyFold, foldAppend, hp, tinyAppend_none]

theorem assertChildren_char (o : Oracles) (r : Reconciler) (c : Cluster)
    (children : List Obj) (hacc : ∀ ch ∈ children, o.accessFail ch = false) :
    assertChildren o r c children =
      ({ r with assertedUIDs := r.assertedUIDs ++ collectPatched o c children },
        applyFold o c children,
        foldAppend none (children.map (fun ch => o.patchFail ch))) := by
  unfold assertChildren
  exact assertChildrenAux_char o children r c none hacc

theorem assertChildrenAux_access (o : Oracles) (pre : List Obj) :
    ∀ (r : Reconciler) (c : Cluster) (pe : Option GoError) (ch : Obj) (post : List Obj),
    (∀ x ∈ pre, o.accessFail x = false) → o.accessFail ch = true →
    assertChildrenAux o r c pe (pre ++ ch :: post) =
      ({ r with assertedUIDs := r.assertedUIDs ++ collectPatched o c pre },
        applyFold o c (pre ++ [ch]),
        some (GoError.permanent (GoError.msg "failed to access child metadata"))) := by
  induction pre with
  | nil =>
    intro r c pe ch post _ haccch
    rw [List.nil_append, assertChildrenAux_cons]
    cases hp : o.patchFail ch with
    | some e =>
      dsimp only
      rw [if_pos (by simp [haccch])]
      simp [collectPatched, applyFold, hp]
    | none =>
      dsimp only
      rw [if_pos (by simp [haccch])]
      simp [collectPatched, applyFold, hp]
  | cons x pre ih =>
    intro r c pe ch post h haccch
    rw [List.cons_append, assertChildrenAux_cons]
    have haccx : o.accessFail x = false := h x (List.mem_cons_self x pre)
    cases hp : o.patchFail x with
    | some e =>
      dsimp only
      rw [if_neg (by simp [haccx])]
      rw [ih _ _ _ ch post (fun y hy => h y (List.mem_cons_of_mem x hy)) haccch]
      simp [collectPatched, applyFold, hp, tinyAppend_none]
    | none =>
      dsimp only
      rw [if_neg (by simp [haccx])]
      rw [ih _ _ _ ch post (fun y hy => h y (List.mem_cons_of_mem x hy)) haccch]
      simp [collectPatched, applyFold, hp, tinyAppend_none]

/-! Characterization of the prune loops. -/

theorem foldAppend_append (pe : Option GoError) (l1 l2 : List (Option GoError)) :
    foldAppend pe (l1 ++ l2) = foldAppend (foldAppend pe l1) l2 := by
  unfold foldAppend
  rw [List.foldl_append]

theorem foldAppend_cons (pe : Option GoError) (x : Option GoError)
    (l : List (Option GoError)) : foldAppend pe (x :: l) = foldAppend (tinyAppend pe x) l := rfl

theorem foldAppend_skip_none (K : UID → Bool) (F : UID → Option GoError) :
    ∀ (l : List Obj) (pe : Option GoError),
    foldAppend pe (l.map (fun it => if K it.uid then none else F it.uid))
      = foldAppend pe ((l.filter (fun it => !(K it.uid))).map (fun it => F it.uid)) := by
  intro l
  induction l with
  | nil => intro pe; rfl
  | cons it rest ih =>
    intro pe
    by_cases hk : K it.uid
    · rw [List.map_cons, if_pos hk]
      rw [show List.filter (fun it => !(K it.uid)) (it :: rest)
            = List.filter (fun it => !(K it.uid)) rest from by
          rw [List.filter_cons]; simp [hk]]
      rw [foldAppend_cons, tinyAppend_none]
      exact ih pe
    · rw [List.map_cons, if_neg hk]
      rw [show List.filter (fun it => !(K it.uid)) (it :: rest)
            = it :: List.filter (fun it => !(K it.uid)) rest from by
          rw [List.filter_cons]; simp [hk]]
      rw [List.map_cons, foldAppend_cons, foldAppend_cons]
      exact ih _

theorem filter_and_of_imp {α : Type} (l : List α) (A P : α → Bool)
    (h : ∀ x ∈ l, A x = true → P x = true) :
    l.filter (fun x => A x && P x) = l.filter A := by
  apply List.filter_congr
  intro x hx
  by_cases ha : A x = true
  · rw [ha, h x hx ha]
    rfl
  · simp only [Bool.not_eq_true] at ha
    rw [ha]
    simp

theorem pruneItems_char (o : Oracles) (keep : List UID) :
    ∀ (items : List Obj) (c : Cluster) (pe : Option GoError),
    pruneItems o keep c pe items =
      ({ c with objs := c.objs.filter (fun ob =>
          !(items.any (fun it => it.uid == ob.uid && !(hasUID keep it.uid) &&
            (o.deleteFail it.uid).isNone))) },
        foldAppend pe (items.map (fun it =>
          if hasUID keep it.uid then none else o.deleteFail it.uid))) := by
  intro items
  induction items with
  | nil =>
    intro c pe
    show (c, pe) = _
    simp [foldAppend]
  | cons item rest ih =>
    intro c pe
    rw [pruneItems]
    by_cases hk : hasUID keep item.uid
    · rw [if_pos hk, ih c pe]
      refine Prod.ext ?_ ?_
      · dsimp only
        congr 1
        apply List.filter_congr
        intro ob _
        simp [List.any_cons, hk]
      · dsimp only
        rw [List.map_cons, if_pos hk, foldAppend_cons, tinyAppend_none]
    · rw [if_neg hk]
      have hkf : hasUID keep item.uid = false := by simpa using hk
      cases hd : o.deleteFail item.uid with
      | some e =>
        dsimp only
        rw [ih c (tinyAppend pe (some e))]
        refine Prod.ext ?_ ?_
        · dsimp only
          congr 1
          apply List.filter_congr
          intro ob _
          simp [List.any_cons, hkf, hd]
        · dsimp only
          rw [List.map_cons, if_neg hk, hd, foldAppend_cons]
      | none =>
        dsimp only
        rw [ih (deleteObj c item.uid) pe]
        refine Prod.ext ?_ ?_
        · dsimp only
          rw [deleteObj_objs, List.filter_filter]
          congr 1
          apply List.filter_congr
          intro ob _
          by_cases hu : ob.uid = item.uid
          · simp [List.any_cons, hkf, hd, hu]
          · have h1 : (ob.uid == item.uid) = false := by simp [hu]
            have h2 : (item.uid == ob.uid) = false := by simp [Ne.symm hu]
            simp [List.any_cons, hkf, hd, h1, h2, Bool.and_comm]
        · dsimp only
          rw [List.map_cons, if_neg hk, hd, foldAppend_cons, tinyAppend_none]

theorem pruneItems_keep_surv (o : Oracles) (keep : List UID) :
    ∀ (items : List Obj) (c : Cluster) (pe : Option GoError) (ob : Obj),
    ob ∈ c.objs → hasUID keep ob.uid = true →
    ob ∈ (pruneItems o keep c pe items).1.objs := by
  intro items
  induction items with
  | nil => intro c pe ob hob _; exact hob
  | cons item rest ih =>
    intro c pe ob hob hkeep
    rw [pruneItems]
    by_cases hk : hasUID keep item.uid
    · rw [if_pos hk]
      exact ih c pe ob hob hkeep
    · rw [if_neg hk]
      cases hd : o.deleteFail item.uid with
      | some e =>
        dsimp only
        exact ih c _ ob hob hkeep
      | none =>
        dsimp only
        apply ih
        · rw [deleteObj_objs, List.mem_filter]
          refine ⟨hob, ?_⟩
          have : ob.uid ≠ item.uid := by
            intro he
            rw [← he] at hk
            exact hk hkeep
          simp [this]
        · exact hkeep

theorem pruneKinds_keep_surv (o : Oracles) (keep : List UID) (lv : String) :
    ∀ (dks : List GroupVersionKind) (c : Cluster) (pe : Option GoError) (ob : Obj),
    ob ∈ c.objs → hasUID keep ob.uid = true →
    ob ∈ (pruneKinds o keep lv c pe dks).1.objs := by
  intro dks
  induction dks with
  | nil => intro c pe ob hob _; exact hob
  | cons g rest ih =>
    intro c pe ob hob hkeep
    rw [pruneKinds]
    cases hl : o.listFail g with
    | some e => exact hob
    | none =>
      dsimp only
      rw [pruneItems_char]
      apply ih
      · have := pruneItems_keep_surv o keep (listLabeled c g lv) c pe ob hob hkeep
        rw [pruneItems_char] at this
        exact this
      · exact hkeep

theorem any_listLabeled_orphan (o : Oracles) (keep : List UID) (c : Cluster)
    (huid : (c.objs.map (fun ob => ob.uid)).Nodup) (g : GroupVersionKind)
    (lv : String) (ob : Obj) (hob : ob ∈ c.objs) :
    ((listLabeled c g lv).any (fun it => it.uid == ob.uid && !(hasUID keep it.uid) &&
        (o.deleteFail it.uid).isNone))
      = ((ob.gvk == g) && (lookupStr ob.labels parentLabelKey == some lv) &&
          !(hasUID keep ob.uid) && (o.deleteFail ob.uid).isNone) := by
  by_cases hrhs : ((ob.gvk == g) && (lookupStr ob.labels parentLabelKey == some lv) &&
      !(hasUID keep ob.uid) && (o.deleteFail ob.uid).isNone) = true
  · rw [hrhs, List.any_eq_true]
    simp only [Bool.and_eq_true] at hrhs
    refine ⟨ob, ?_, ?_⟩
    · unfold listLabeled
      rw [List.mem_filter]
      exact ⟨hob, by simp [hrhs.1.1.1, hrhs.1.1.2]⟩
    · simp [hrhs.1.2, hrhs.2]
  · have hrf : ((ob.gvk == g) && (lookupStr ob.labels parentLabelKey == some lv) &&
        !(hasUID keep ob.uid) && (o.deleteFail ob.uid).isNone) = false :=
      Bool.eq_false_iff.mpr hrhs
    rw [hrf]
    rw [show ∀ b : Bool, (b = false) = (¬(b = true)) from fun b => by simp]
    rw [List.any_eq_true]
    rintro ⟨it, hit, hpred⟩
    unfold listLabeled at hit
    rw [List.mem_filter] at hit
    simp only [Bool.and_eq_true, beq_iff_eq] at hpred
    have hsame : it = ob := List.inj_on_of_nodup_map huid hit.1 hob hpred.1.1
    subst hsame
    apply hrhs
    have hb := hit.2
    simp only [Bool.and_eq_true] at hb
    simp [hb.1, hb.2, hpred.1.2, hpred.2]

theorem pruneOneKind_uid_nodup (o : Oracles) (keep : List UID) (lv : String)
    (g : GroupVersionKind) (c : Cluster)
    (huid : (c.objs.map (fun ob => ob.uid)).Nodup) :
    ((pruneOneKindCluster o keep lv g c).objs.map (fun ob => ob.uid)).Nodup :=
  List.Nodup.sublist (List.Sublist.map _ (List.filter_sublist _)) huid

theorem listLabeled_pruneOne_other (o : Oracles) (keep : List UID) (lv : String)
    (g g' : GroupVersionKind) (c : Cluster)
    (huid : (c.objs.map (fun ob => ob.uid)).Nodup) (hne : g' ≠ g) :
    listLabeled (pruneOneKindCluster o keep lv g c) g' lv = listLabeled c g' lv := by
  show ((c.objs.filter _).filter _) = _
  rw [List.filter_filter]
  apply filter_and_of_imp
  intro ob hob hlab
  rw [any_listLabeled_orphan o keep c huid g lv ob hob]
  simp only [Bool.and_eq_true, beq_iff_eq] at hlab
  rw [show (ob.gvk == g) = false from by simp [hlab.1, hne]]
  simp

theorem orphansOf_pruneOne (o : Oracles) (keep : List UID) (lv : String)
    (g : GroupVersionKind) (c : Cluster)
    (huid : (c.objs.map (fun ob => ob.uid)).Nodup) :
    ∀ (rest : List GroupVersionKind), g ∉ rest →
    orphansOf rest lv keep (pruneOneKindCluster o keep lv g c) = orphansOf rest lv keep c := by
  intro rest
  induction rest with
  | nil => intro _; rfl
  | cons g' rest ih =>
    intro hnotin
    unfold orphansOf
    rw [List.flatMap_cons, List.flatMap_cons]
    rw [listLabeled_pruneOne_other o keep lv g g' c huid (by
      intro he
      exact hnotin (by rw [← he]; exact List.mem_cons_self g' rest))]
    congr 1
    exact ih (fun hm => hnotin (List.mem_cons_of_mem g' hm))

theorem pruneKinds_char (o : Oracles) (keep : List UID) (lv : String) :
    ∀ (dks : List GroupVersionKind) (c : Cluster) (pe : Option GoError),
    (∀ g ∈ dks, o.listFail g = none) → dks.Nodup →
    (c.objs.map (fun ob => ob.uid)).Nodup →
    pruneKinds o keep lv c pe dks =
      ({ c with objs := c.objs.filter (pruneSurvives o dks lv keep) },
        foldAppend pe ((orphansOf dks lv keep c).map (fun ob => o.deleteFail ob.uid)),
        none) := by
  intro dks
  induction dks with
  | nil =>
    intro c pe _ _ _
    show (c, pe, none) = _
    rw [List.filter_eq_self.2 (fun ob _ => by simp [pruneSurvives, isOrphan])]
    rfl
  | cons g rest ih =>
    intro c pe hList hnd huid
    rw [pruneKinds]
    rw [hList g (List.mem_cons_self g rest)]
    dsimp only
    rw [pruneItems_char o keep (listLabeled c g lv) c pe]
    rw [show ({ c with objs := c.objs.filter (fun ob =>
        !((listLabeled c g lv).any (fun it => it.uid == ob.uid && !(hasUID keep it.uid) &&
          (o.deleteFail it.uid).isNone))) } : Cluster) = pruneOneKindCluster o keep lv g c from rfl]
    rw [ih (pruneOneKindCluster o keep lv g c)
      (foldAppend pe ((listLabeled c g lv).map (fun it =>
        if hasUID keep it.uid then none else o.deleteFail it.uid)))
      (fun g' hg' => hList g' (List.mem_cons_of_mem g hg'))
      ((List.nodup_cons.1 hnd).2)
      (pruneOneKind_uid_nodup o keep lv g c huid)]
    have hgnotin : g ∉ rest := (List.nodup_cons.1 hnd).1
    refine Prod.ext ?_ (Prod.ext ?_ rfl)
    · show ({ pruneOneKindCluster o keep lv g c with
        objs := (pruneOneKindCluster o keep lv g c).objs.filter (pruneSurvives o rest lv keep) } : Cluster) = _
      unfold pruneOneKindCluster
      dsimp only
      rw [List.filter_filter]
      congr 1
      apply List.filter_congr
      intro ob hob
      rw [any_listLabeled_orphan o keep c huid g lv ob hob]
      unfold pruneSurvives isOrphan
      by_cases h1 : ob.gvk = g <;>
        by_cases h2 : lookupStr ob.labels parentLabelKey = some lv <;>
          by_cases h3 : hasUID keep ob.uid = true <;>
            by_cases h4 : (o.deleteFail ob.uid).isNone = true <;>
              by_cases h5 : rest.contains ob.gvk = true <;>
                simp [h1, h2, h3, h4, h5, List.contains_cons]
    · show foldAppend (foldAppend pe _) ((orphansOf rest lv keep (pruneOneKindCluster o keep lv g c)).map _) = _
      rw [orphansOf_pruneOne o keep lv g c huid rest hgnotin]
      rw [foldAppend_skip_none (fun u => hasUID keep u) (fun u => o.deleteFail u) (listLabeled c g lv) pe]
      rw [show orphansOf (g :: rest) lv keep c
            = (listLabeled c g lv).filter (fun it => !(hasUID keep it.uid)) ++ orphansOf rest lv keep c from by
          unfold orphansOf
          rw [List.flatMap_cons]]
      rw [List.map_append, foldAppend_append]

theorem prune_fail (o : Oracles) (r : Reconciler) (p : ParentObj) (state : State)
    (c : Cluster) (hList : ∀ g ∈ state.deployedKinds, o.listFail g = none)
    (hnd : state.deployedKinds.Nodup)
    (huid : (c.objs.map (fun ob => ob.uid)).Nodup)
    (hsome : (foldAppend none ((orphansOf state.deployedKinds (toString p.uid) r.assertedUIDs c).map
      (fun ob => o.deleteFail ob.uid))).isSome = true) :
    prune o r p state c =
      (p, { c with objs := c.objs.filter (pruneSurvives o state.deployedKinds (toString p.uid) r.assertedUIDs) },
        foldAppend none ((orphansOf state.deployedKinds (toString p.uid) r.assertedUIDs c).map
          (fun ob => o.deleteFail ob.uid))) := by
  unfold prune
  rw [pruneKinds_char o r.assertedUIDs (toString p.uid) state.deployedKinds c none hList hnd huid]
  dsimp only
  rw [if_pos hsome]

theorem prune_ok_shrink (o : Oracles) (r : Reconciler) (p : ParentObj) (state : State)
    (c : Cluster) (hList : ∀ g ∈ state.deployedKinds, o.listFail g = none)
    (hnd : state.deployedKinds.Nodup)
    (huid : (c.objs.map (fun ob => ob.uid)).Nodup)
    (hnone : (foldAppend none ((orphansOf state.deployedKinds (toString p.uid) r.assertedUIDs c).map
      (fun ob => o.deleteFail ob.uid))) = none)
    (hlen : state.deployedKinds.length ≠ r.assertedKinds.length)
    (hupd : o.updateFail = none) :
    prune o r p state c =
      (updateParent (SetCompositeState p ⟨r.assertedKinds⟩),
        { c with objs := c.objs.filter (pruneSurvives o state.deployedKinds (toString p.uid) r.assertedUIDs) },
        none) := by
  unfold prune
  rw [pruneKinds_char o r.assertedUIDs (toString p.uid) state.deployedKinds c none hList hnd huid]
  dsimp only
  rw [hnone]
  rw [if_neg (by simp), if_pos hlen, hupd]

theorem prune_ok_same (o : Oracles) (r : Reconciler) (p : ParentObj) (state : State)
    (c : Cluster) (hList : ∀ g ∈ state.deployedKinds, o.listFail g = none)
    (hnd : state.deployedKinds.Nodup)
    (huid : (c.objs.map (fun ob => ob.uid)).Nodup)
    (hnone : (foldAppend none ((orphansOf state.deployedKinds (toString p.uid) r.assertedUIDs c).map
      (fun ob => o.deleteFail ob.uid))) = none)
    (hlen : state.deployedKinds.length = r.assertedKinds.length) :
    prune o r p state c =
      (p, { c with objs := c.objs.filter (pruneSurvives o state.deployedKinds (toString p.uid) r.assertedUIDs) },
        none) := by
  unfold prune
  rw [pruneKinds_char o r.assertedUIDs (toString p.uid) state.deployedKinds c none hList hnd huid]
  dsimp only
  rw [hnone]
  rw [if_neg (by simp), if_neg (by simp [hlen])]

theorem markDesiredKinds_changed (o : Oracles) (r : Reconciler) (p : ParentObj)
    (state : State) (children : List Obj)
    (hch : (State.EnsureKinds state (markKinds r.assertedKinds (children.map (fun ch => ch.gvk)))).2 = true)
    (hupd : o.updateFail = none) :
    markDesiredKinds o r p state children =
      ({ r with assertedKinds := markKinds r.assertedKinds (children.map (fun ch => ch.gvk)) },
        children.map (markChild p.uid),
        updateParent (SetCompositeState p
          (State.EnsureKinds state (markKinds r.assertedKinds (children.map (fun ch => ch.gvk)))).1),
        (State.EnsureKinds state (markKinds r.assertedKinds (children.map (fun ch => ch.gvk)))).1,
        none) := by
  simp only [markDesiredKinds]
  rw [hch]
  simp only [hupd]
  rw [if_pos trivial]

theorem markDesiredKinds_unchanged (o : Oracles) (r : Reconciler) (p : ParentObj)
    (state : State) (children : List Obj)
    (hch : (State.EnsureKinds state (markKinds r.assertedKinds (children.map (fun ch => ch.gvk)))).2 = false) :
    markDesiredKinds o r p state children =
      ({ r with assertedKinds := markKinds r.assertedKinds (children.map (fun ch => ch.gvk)) },
        children.map (markChild p.uid), p,
        (State.EnsureKinds state (markKinds r.assertedKinds (children.map (fun ch => ch.gvk)))).1,
        none) := by
  simp only [markDesiredKinds]
  rw [hch]
  rw [if_neg (by simp)]

theorem collectPatched_length (o : Oracles) :
    ∀ (children : List Obj) (c : Cluster),
    (collectPatched o c children).length = children.length := by
  intro children
  induction children with
  | nil => intro c; rfl
  | cons ch rest ih =>
    intro c
    unfold collectPatched
    cases o.patchFail ch with
    | some e =>
      dsimp only
      rw [List.length_cons, ih c, List.length_cons]
    | none =>
      dsimp only
      rw [List.length_cons, ih _, List.length_cons]

theorem foldAppend_all_none (l : List (Option GoError)) (pe : Option GoError)
    (h : ∀ x ∈ l, x = none) : foldAppend pe l = pe := by
  induction l generalizing pe with
  | nil => rfl
  | cons x rest ih =>
    rw [foldAppend_cons, h x (List.mem_cons_self x rest), tinyAppend_none]
    exact ih pe (fun y hy => h y (List.mem_cons_of_mem x hy))

theorem tinyAppend_isSome_left (pe : Option GoError) (x : Option GoError)
    (h : pe.isSome = true) : (tinyAppend pe x).isSome = true := by
  cases pe with
  | none => simp at h
  | some e =>
    cases x with
    | none => rw [tinyAppend_none]; rfl
    | some n => cases e <;> rfl

theorem tinyAppend_some_isSome (pe : Option GoError) (e : GoError) :
    (tinyAppend pe (some e)).isSome = true := by
  cases pe with
  | none => rfl
  | some x => cases x <;> rfl

theorem foldAppend_isSome_mono (l : List (Option GoError)) :
    ∀ (pe : Option GoError), pe.isSome = true → (foldAppend pe l).isSome = true := by
  induction l with
  | nil => intro pe h; exact h
  | cons x rest ih =>
    intro pe h
    rw [foldAppend_cons]
    exact ih _ (tinyAppend_isSome_left pe x h)

theorem foldAppend_isSome_of_mem (l : List (Option GoError)) :
    ∀ (pe : Option GoError) (e : GoError), some e ∈ l → (foldAppend pe l).isSome = true := by
  induction l with
  | nil => intro pe e h; simp at h
  | cons x rest ih =>
    intro pe e h
    rcases List.mem_cons.1 h with h | h
    · rw [foldAppend_cons, ← h]
      exact foldAppend_isSome_mono rest _ (tinyAppend_some_isSome pe e)
    · rw [foldAppend_cons]
      exact ih _ e h

theorem foldAppend_filter_some (F : Obj → Option GoError) :
    ∀ (l : List Obj) (pe : Option GoError),
    foldAppend pe (l.map F) = foldAppend pe ((l.filter (fun x => (F x).isSome)).map F) := by
  intro l
  induction l with
  | nil => intro pe; rfl
  | cons x rest ih =>
    intro pe
    rw [List.map_cons, foldAppend_cons, List.filter_cons]
    cases hF : F x with
    | none =>
      rw [tinyAppend_none]
      rw [if_neg (by simp)]
      exact ih pe
    | some e =>
      rw [if_pos (by rfl), List.map_cons, foldAppend_cons, hF]
      exact ih _

/-! The specification's claims. -/

/-- C6: EnsureKinds merge semantics — a desired kind absent from the
historical list is appended (marking changed), one present with a different
version is overwritten in place (marking changed), one present with the same
version is a no-op; pre-existing entries keep their positions (their final
value being the last desired entry of their group/kind, if any), newly
appended entries follow desired-list order (one per new group/kind, holding
its last desired version), and the returned boolean is false exactly when no
step mutated the list. -/
theorem c6_ensureKinds_merge (s : State) (ks : List GroupVersionKind) :
    (∀ (i : Nat) (k₀ : GroupVersionKind), s.deployedKinds[i]? = some k₀ →
      ((State.EnsureKinds s ks).1.deployedKinds)[i]? =
        some (if kindIndex s.deployedKinds k₀.groupKind = some i
              then (lastWithGK ks k₀.groupKind).getD k₀ else k₀)) ∧
    ((State.EnsureKinds s ks).1.deployedKinds.drop s.deployedKinds.length
      = (newGKs s.deployedKinds ks).filterMap (lastWithGK ks)) ∧
    ((State.EnsureKinds s ks).2 = false ↔
      ∀ k ∈ ks, ∃ i k', kindIndex s.deployedKinds k.groupKind = some i ∧
        s.deployedKinds[i]? = some k' ∧ k'.version = k.version) := by
  refine ⟨?_, ?_, ?_⟩
  · intro i k₀ h
    exact ek_getElem ks s.deployedKinds false i k₀ h
  · exact ek_drop ks s.deployedKinds false
  · exact ek_changed ks s.deployedKinds

/-- Witness for C6 at a concrete input: a historical list holding `v1
Service`, desired kinds `v2 Service` then `v1 ConfigMap`; the pre-existing
entry is overwritten in place with the last matching desired entry. -/
theorem c6_ensureKinds_merge_witness :
    ((State.EnsureKinds ⟨[svcGVK]⟩ [svcV2GVK, cmGVK]).1.deployedKinds)[0]? =
      some (if kindIndex [svcGVK] svcGVK.groupKind = some 0
            then (lastWithGK [svcV2GVK, cmGVK] svcGVK.groupKind).getD svcGVK
            else svcGVK) :=
  (c6_ensureKinds_merge ⟨[svcGVK]⟩ [svcV2GVK, cmGVK]).1 0 svcGVK rfl

/-- C7: state reading — an absent annotation map or absent state key yields
an empty state and no error; malformed encoded content makes the read fail,
and each public operation (Reconcile, ReconcileWithoutPrune, Prune) then
returns an error classified Permanent. -/
theorem c7_state_reading :
    (∀ p : ParentObj, p.annos = none → GetCompositeState p = .ok ⟨[]⟩) ∧
    (∀ (p : ParentObj) (anno : List (String × AnnoValue)), p.annos = some anno →
      lookupStr anno stateKey = none → GetCompositeState p = .ok ⟨[]⟩) ∧
    (∀ (p : ParentObj) (anno : List (String × AnnoValue)) (t : String),
      p.annos = some anno → lookupStr anno stateKey = some (AnnoValue.raw t) →
      (∃ e, GetCompositeState p = .error e)) ∧
    (∀ (o : Oracles) (r : Reconciler) (p : ParentObj) (c : Cluster)
      (children : List Obj) (anno : List (String × AnnoValue)) (t : String),
      p.annos = some anno → lookupStr anno stateKey = some (AnnoValue.raw t) →
      (∃ e, (Reconcile o r p c children).2.2.2 = some e ∧ IsPermanentError e = true) ∧
      (∃ e, (ReconcileWithoutPrune o r p c children).2.2.2 = some e ∧ IsPermanentError e = true) ∧
      (∃ e, (Prune o r p c).2.2 = some e ∧ IsPermanentError e = true)) := by
  have hget : ∀ (p : ParentObj) (anno : List (String × AnnoValue)) (t : String),
      p.annos = some anno → lookupStr anno stateKey = some (AnnoValue.raw t) →
      GetCompositeState p = .error (GoError.msg ("invalid composite state: " ++ t)) := by
    intro p anno t h1 h2
    unfold GetCompositeState
    rw [h1]
    dsimp only
    rw [h2]
  refine ⟨?_, ?_, ?_, ?_⟩
  · intro p h
    unfold GetCompositeState
    rw [h]
  · intro p anno h1 h2
    unfold GetCompositeState
    rw [h1]
    dsimp only
    rw [h2]
  · intro p anno t h1 h2
    exact ⟨_, hget p anno t h1 h2⟩
  · intro o r p c children anno t h1 h2
    refine ⟨?_, ?_, ?_⟩
    · refine ⟨GoError.permanent (GoError.msg ("invalid composite state: " ++ t)), ?_, rfl⟩
      unfold Reconcile
      rw [hget p anno t h1 h2]
    · refine ⟨GoError.permanent (GoError.msg ("invalid composite state: " ++ t)), ?_, rfl⟩
      unfold ReconcileWithoutPrune
      rw [hget p anno t h1 h2]
    · refine ⟨GoError.permanent (GoError.msg ("invalid composite state: " ++ t)), ?_, rfl⟩
      unfold Prune
      rw [hget p anno t h1 h2]

/-- Witness for C7 at concrete inputs: a parent without annotations reads as
the empty state, and Reconcile on a parent with malformed state content
returns a Permanent error. -/
theorem c7_state_reading_witness :
    GetCompositeState wParentBare = .ok ⟨[]⟩ ∧
    (∃ e, (Reconcile noFailOracles ⟨[], []⟩ wParentRaw wEmptyCluster []).2.2.2 = some e ∧
      IsPermanentError e = true) :=
  ⟨c7_state_reading.1 wParentBare rfl,
    (c7_state_reading.2.2.2 noFailOracles ⟨[], []⟩ wParentRaw wEmptyCluster []
      [(stateKey, AnnoValue.raw "oops")] "oops" rfl rfl).1⟩

/-- C9: uniqueness invariant — if a state's deployed-kind list has no
duplicate group/kind pairs, the state EnsureKinds produces again has none,
for every input kind list. -/
theorem c9_ensureKinds_uniqueness (s : State) (ks : List GroupVersionKind)
    (hnd : (gks s.deployedKinds).Nodup) :
    (gks ((State.EnsureKinds s ks).1.deployedKinds)).Nodup := by
  show (gks ((ensureKindsAux s.deployedKinds false ks).1)).Nodup
  exact ek_nodup ks s.deployedKinds false hnd

/-- Witness for C9 at a concrete input. -/
theorem c9_ensureKinds_uniqueness_witness :
    (gks ([svcGVK] : List GroupVersionKind)).Nodup ∧
    (gks ((State.EnsureKinds ⟨[svcGVK]⟩ [svcV2GVK, cmGVK]).1.deployedKinds)).Nodup :=
  ⟨by decide, c9_ensureKinds_uniqueness ⟨[svcGVK]⟩ [svcV2GVK, cmGVK] (by decide)⟩

/-- Counterexample to C4 as stated: with a single child whose upsert (patch)
fails, no child is successfully applied, yet the collected identity list is
the failing child's own UID, not the empty list of successfully applied
children. -/
theorem c4_counterexample :
    (assertChildren wPatchFailOracles ⟨[], []⟩ wEmptyCluster [wChild7]).1.assertedUIDs = [7] ∧
    (assertChildren wPatchFailOracles ⟨[], []⟩ wEmptyCluster [wChild7]).2.2.isSome = true ∧
    ([7] : List UID) ≠ [] := by
  refine ⟨rfl, rfl, by decide⟩

/-- C4 (amended): per-child upsert failure is recorded into the aggregator
(the returned error is the fold of the per-child patch outcomes, in order)
and processing continues with the next child; the identity list collects one
UID per processed child — a child whose upsert failed contributes its
current, pre-apply UID — and the cluster reflects exactly the successful
patches; a failed metadata read-back instead stops immediately with a
Permanent error, keeping only the identities collected before it. -/
theorem c4_child_application (o : Oracles) (r : Reconciler) (c : Cluster)
    (children : List Obj) :
    ((∀ ch ∈ children, o.accessFail ch = false) →
      (assertChildren o r c children).2.2
          = foldAppend none (children.map (fun ch => o.patchFail ch)) ∧
      (assertChildren o r c children).1.assertedUIDs
          = r.assertedUIDs ++ collectPatched o c children ∧
      (collectPatched o c children).length = children.length ∧
      (assertChildren o r c children).2.1 = applyFold o c children) ∧
    (∀ (pre : List Obj) (ch : Obj) (post : List Obj), children = pre ++ ch :: post →
      (∀ x ∈ pre, o.accessFail x = false) → o.accessFail ch = true →
      (assertChildren o r c children).2.2
          = some (GoError.permanent (GoError.msg "failed to access child metadata")) ∧
      IsPermanentError (GoError.permanent (GoError.msg "failed to access child metadata")) = true ∧
      (assertChildren o r c children).1.assertedUIDs
          = r.assertedUIDs ++ collectPatched o c pre) := by
  constructor
  · intro hacc
    rw [assertChildren_char o r c children hacc]
    exact ⟨rfl, rfl, collectPatched_length o children c, rfl⟩
  · intro pre ch post hsplit hpre haccch
    subst hsplit
    unfold assertChildren
    rw [assertChildrenAux_access o pre r c none ch post hpre haccch]
    exact ⟨rfl, rfl, rfl⟩

/-- Witness for C4 (amended) at a concrete input: the failing child's own
UID is collected and the aggregated error is the patch failure. -/
theorem c4_child_application_witness :
    (assertChildren wPatchFailOracles ⟨[], []⟩ wEmptyCluster [wChild7]).1.assertedUIDs
      = [] ++ collectPatched wPatchFailOracles wEmptyCluster [wChild7] :=
  ((c4_child_application wPatchFailOracles ⟨[], []⟩ wEmptyCluster [wChild7]).1
    (fun _ _ => rfl)).2.1

/-- Counterexample to C3 as stated: the public `Prune` never fetches current
identities of last-known children; on a freshly constructed reconciler (empty
keep-set) it deletes a still-present labelled child — the Service stored in
the cluster — even though nothing about the desired set was consulted, and
succeeds. -/
theorem c3_counterexample :
    wCluster1.objs ≠ [] ∧
    (Prune noFailOracles ⟨[], []⟩ wParentSvc wCluster1).2.1.objs = [] ∧
    (Prune noFailOracles ⟨[], []⟩ wParentSvc wCluster1).2.2 = none := by
  refine ⟨by decide, by decide, rfl⟩

/-- C3 (amended): `Prune()` prunes with the keep-set accumulated in the
instance's `assertedUIDs` field (filled only by prior apply phases on the
same instance); it performs no storage fetch of desired identities.  Under
failure-free storage, the surviving objects are exactly those that are not
orphans with respect to that instance keep-set, so an object is retained
precisely when its kind is outside the deployed list, it lacks the
correlation label, or its UID was collected by a prior apply on this
instance. -/
theorem c3_prune_instance_keepset (o : Oracles) (r : Reconciler) (p : ParentObj)
    (c : Cluster) (st : State) (hget : GetCompositeState p = .ok st)
    (hnf : NoFailures o) (hnd : st.deployedKinds.Nodup)
    (huid : (c.objs.map (fun ob => ob.uid)).Nodup) :
    (Prune o r p c).2.1.objs
        = c.objs.filter (pruneSurvives o st.deployedKinds (toString p.uid) r.assertedUIDs) ∧
    (∀ ob ∈ c.objs, isOrphan st.deployedKinds (toString p.uid) r.assertedUIDs ob = true →
      ob ∉ (Prune o r p c).2.1.objs) ∧
    (∀ ob ∈ c.objs, hasUID r.assertedUIDs ob.uid = true →
      ob ∈ (Prune o r p c).2.1.objs) := by
  obtain ⟨hpf, haf, hlf, hdf, huf⟩ := hnf
  have hnone : (foldAppend none ((orphansOf st.deployedKinds (toString p.uid) r.assertedUIDs c).map
      (fun ob => o.deleteFail ob.uid))) = none := by
    apply foldAppend_all_none
    intro x hx
    rcases List.mem_map.1 hx with ⟨ob, _, hv⟩
    rw [← hv, hdf]
  have hmain : (Prune o r p c).2.1.objs
      = c.objs.filter (pruneSurvives o st.deployedKinds (toString p.uid) r.assertedUIDs) := by
    unfold Prune
    rw [hget]
    dsimp only
    by_cases hlen : st.deployedKinds.length = r.assertedKinds.length
    · rw [prune_ok_same o r p st c (fun g _ => hlf g) hnd huid hnone hlen]
    · rw [prune_ok_shrink o r p st c (fun g _ => hlf g) hnd huid hnone hlen huf]
  refine ⟨hmain, ?_, ?_⟩
  · intro ob hob horph hmem
    rw [hmain] at hmem
    rcases List.mem_filter.1 hmem with ⟨_, hsurv⟩
    unfold pruneSurvives at hsurv
    rw [horph, hdf] at hsurv
    simp at hsurv
  · intro ob hob hkeep
    rw [hmain, List.mem_filter]
    refine ⟨hob, ?_⟩
    unfold pruneSurvives isOrphan
    rw [hkeep]
    simp

/-- Witness for C3 (amended) at a concrete input: with an empty instance
keep-set, the labelled Service is an orphan and nothing survives. -/
theorem c3_prune_instance_keepset_witness :
    (Prune noFailOracles ⟨[], []⟩ wParentSvc wCluster1).2.1.objs
      = wCluster1.objs.filter
          (pruneSurvives noFailOracles [svcGVK] (toString wParentSvc.uid) []) :=
  (c3_prune_instance_keepset noFailOracles ⟨[], []⟩ wParentSvc wCluster1 ⟨[svcGVK]⟩
    rfl ⟨fun _ => rfl, fun _ => rfl, fun _ => rfl, fun _ => rfl, rfl⟩
    (by decide) (by decide)).1

/-- C5: prune atomicity on delete failure — when some orphan delete fails,
prune aggregates exactly the per-item delete failures in order (continuing
with the remaining items, whose deletions persist), returns the aggregated
error, and leaves the parent untouched (no kind-list state change); the
state shrink — replacing the kind list by the asserted kinds and persisting
it with one update — happens exactly when every delete succeeded and the new
kind list's length differs from the historical list's length. -/
theorem c5_prune_atomicity (o : Oracles) (r : Reconciler) (p : ParentObj)
    (st : State) (c : Cluster)
    (hlist : ∀ g, o.listFail g = none) (hupd : o.updateFail = none)
    (hnd : st.deployedKinds.Nodup)
    (huid : (c.objs.map (fun ob => ob.uid)).Nodup) :
    (((orphansOf st.deployedKinds (toString p.uid) r.assertedUIDs c).filter
        (fun ob => (o.deleteFail ob.uid).isSome)) ≠ [] →
      (prune o r p st c).2.2
          = foldAppend none
              (((orphansOf st.deployedKinds (toString p.uid) r.assertedUIDs c).filter
                  (fun ob => (o.deleteFail ob.uid).isSome)).map (fun ob => o.deleteFail ob.uid)) ∧
      ((prune o r p st c).2.2).isSome = true ∧
      (prune o r p st c).1 = p ∧
      (prune o r p st c).2.1.objs
          = c.objs.filter (pruneSurvives o st.deployedKinds (toString p.uid) r.assertedUIDs)) ∧
    (((orphansOf st.deployedKinds (toString p.uid) r.assertedUIDs c).filter
        (fun ob => (o.deleteFail ob.uid).isSome)) = [] →
      (st.deployedKinds.length ≠ r.assertedKinds.length →
        (prune o r p st c).1 = updateParent (SetCompositeState p ⟨r.assertedKinds⟩) ∧
        GetCompositeState (prune o r p st c).1 = .ok ⟨r.assertedKinds⟩ ∧
        (prune o r p st c).2.2 = none) ∧
      (st.deployedKinds.length = r.assertedKinds.length →
        (prune o r p st c).1 = p ∧ (prune o r p st c).2.2 = none)) := by
  constructor
  · intro hne
    have hagg : (foldAppend none ((orphansOf st.deployedKinds (toString p.uid) r.assertedUIDs c).map
        (fun ob => o.deleteFail ob.uid))) =
        foldAppend none (((orphansOf st.deployedKinds (toString p.uid) r.assertedUIDs c).filter
          (fun ob => (o.deleteFail ob.uid).isSome)).map (fun ob => o.deleteFail ob.uid)) :=
      foldAppend_filter_some _ _ none
    have hsome : (foldAppend none ((orphansOf st.deployedKinds (toString p.uid) r.assertedUIDs c).map
        (fun ob => o.deleteFail ob.uid))).isSome = true := by
      rcases List.exists_mem_of_ne_nil _ hne with ⟨ob, hob⟩
      rcases List.mem_filter.1 hob with ⟨hmem, hsome'⟩
      rcases Option.isSome_iff_exists.1 hsome' with ⟨e, he⟩
      apply foldAppend_isSome_of_mem _ none e
      rw [← he]
      exact List.mem_map_of_mem _ hmem
    rw [prune_fail o r p st c (fun g _ => hlist g) hnd huid hsome]
    exact ⟨hagg, by rw [← hagg] at *; exact hsome, rfl, rfl⟩
  · intro hnofail
    have hnone : (foldAppend none ((orphansOf st.deployedKinds (toString p.uid) r.assertedUIDs c).map
        (fun ob => o.deleteFail ob.uid))) = none := by
      apply foldAppend_all_none
      intro x hx
      rcases List.mem_map.1 hx with ⟨ob, hob, hv⟩
      have := List.filter_eq_nil_iff.1 hnofail ob hob
      rw [← hv]
      cases hd : o.deleteFail ob.uid with
      | none => rfl
      | some e => exact absurd (by rw [hd]; rfl) this
    constructor
    · intro hlen
      rw [prune_ok_shrink o r p st c (fun g _ => hlist g) hnd huid hnone hlen hupd]
      refine ⟨rfl, ?_, rfl⟩
      rw [getComposite_updateParent, getComposite_setComposite]
    · intro hlen
      rw [prune_ok_same o r p st c (fun g _ => hlist g) hnd huid hnone hlen]
      exact ⟨rfl, rfl⟩

/-- Witness for C5 at a concrete input: of three labelled Service orphans the
delete of UID 5 fails; pruning reports exactly that failure and the parent is
unchanged (the other two deletions persist in the cluster conjunct). -/
theorem c5_prune_atomicity_witness :
    (prune wDeleteFailOracles ⟨[], []⟩ wParentSvc ⟨[svcGVK]⟩ wCluster3).1 = wParentSvc ∧
    (prune wDeleteFailOracles ⟨[], []⟩ wParentSvc ⟨[svcGVK]⟩ wCluster3).2.1.objs
      = wCluster3.objs.filter
          (pruneSurvives wDeleteFailOracles [svcGVK] (toString wParentSvc.uid) []) := by
  have h := (c5_prune_atomicity wDeleteFailOracles ⟨[], []⟩ wParentSvc ⟨[svcGVK]⟩ wCluster3
    (fun _ => rfl) rfl (by decide) (by decide)).1 (by decide)
  exact ⟨h.2.2.1, h.2.2.2⟩

theorem markChild_key (u : UID) (ch : Obj) : objKey (markChild u ch) = objKey ch := by
  simp only [markChild]
  split
  · rfl
  · rfl

theorem hasUID_of_mem (l : List UID) (u : UID) (h : u ∈ l) : hasUID l u = true := by
  unfold hasUID
  rw [List.any_eq_true]
  exact ⟨u, h, by simp⟩

theorem containsGVK_iff (l : List GroupVersionKind) (a : GroupVersionKind) :
    l.contains a = true ↔ a ∈ l := by
  simp

theorem isOrphan_mono_false (dks dks' : List GroupVersionKind) (lv : String)
    (keep : List UID) (ob : Obj) (hsub : ∀ x ∈ dks', x ∈ dks)
    (h : isOrphan dks lv keep ob = false) : isOrphan dks' lv keep ob = false := by
  unfold isOrphan at h ⊢
  by_cases hc : dks'.contains ob.gvk = true
  · have hcF : dks.contains ob.gvk = true :=
      (containsGVK_iff _ _).2 (hsub _ ((containsGVK_iff _ _).1 hc))
    rw [hcF] at h
    rw [hc]
    simpa using h
  · have hc' : dks'.contains ob.gvk = false := by
      cases hx : dks'.contains ob.gvk
      · rfl
      · exact absurd hx hc
    rw [hc']
    simp

theorem ek_eq_self (ks : List GroupVersionKind) :
    ∀ (s : List GroupVersionKind), (∀ k ∈ ks, ∃ i, kindIndex s k.groupKind = some i ∧
      s[i]? = some k) → ensureKindsAux s false ks = (s, false) := by
  induction ks with
  | nil => intro s _; rfl
  | cons k ks ih =>
    intro s hmem
    obtain ⟨i, hfind, hget⟩ := hmem k (List.mem_cons_self k ks)
    rw [ek_cons_some s k ks false i hfind]
    rw [getD_of_getElem? s i k hget]
    rw [if_pos rfl]
    exact ih s (fun x hx => hmem x (List.mem_cons_of_mem k hx))

theorem EnsureKinds_self (st : State) (ks : List GroupVersionKind)
    (hnd : (gks st.deployedKinds).Nodup) (hmem : ∀ k ∈ ks, k ∈ st.deployedKinds) :
    State.EnsureKinds st ks = (st, false) := by
  have h := ek_eq_self ks st.deployedKinds
    (fun k hk => kindIndex_of_mem_nodup st.deployedKinds k hnd (hmem k hk))
  simp only [State.EnsureKinds]
  rw [h]

theorem ek_mem_preserved (ks : List GroupVersionKind) :
    ∀ (s : List GroupVersionKind) (b : Bool) (k : GroupVersionKind), k ∈ s →
    (∀ y ∈ ks, y.groupKind ≠ k.groupKind) → k ∈ (ensureKindsAux s b ks).1 := by
  induction ks with
  | nil => intro s b k hk _; exact hk
  | cons y ks ih =>
    intro s b k hk hne
    have hy : y.groupKind ≠ k.groupKind := hne y (List.mem_cons_self y ks)
    have hne' : ∀ z ∈ ks, z.groupKind ≠ k.groupKind :=
      fun z hz => hne z (List.mem_cons_of_mem y hz)
    cases hx : kindIndex s y.groupKind with
    | none =>
      rw [ek_cons_none s y ks b hx]
      exact ih _ _ k (List.mem_append.2 (Or.inl hk)) hne'
    | some i =>
      rw [ek_cons_some s y ks b i hx]
      by_cases hv : (s.getD i default).version = y.version
      · rw [if_pos hv]
        exact ih s b k hk hne'
      · rw [if_neg hv]
        apply ih _ true k _ hne'
        obtain ⟨j, hjlt, hj⟩ := List.mem_iff_getElem.1 hk
        have hij : i ≠ j := by
          intro he
          subst he
          obtain ⟨ki, hki, hgki⟩ := kindIndex_some_gk s y.groupKind i hx
          rw [List.getElem?_eq_getElem hjlt, hj] at hki
          have hkik : k = ki := Option.some.inj hki
          exact hy (by rw [← hgki, ← hkik])
        have hj? : (s.set i y)[j]? = some k := by
          rw [List.getElem?_set, if_neg hij, List.getElem?_eq_getElem hjlt, hj]
        obtain ⟨hh, hval⟩ := List.getElem?_eq_some.1 hj?
        rw [← hval]
        exact List.getElem_mem hh

theorem ek_mem_of_mem :
    ∀ (ks : List GroupVersionKind), (gks ks).Nodup →
    ∀ (s : List GroupVersionKind) (b : Bool) (k : GroupVersionKind), k ∈ ks →
    k ∈ (ensureKindsAux s b ks).1 := by
  intro ks
  induction ks with
  | nil => intro _ s b k hk; simp at hk
  | cons y ks ih =>
    intro hnd s b k hk
    simp only [gks, List.map_cons, List.nodup_cons] at hnd
    have hndt : (gks ks).Nodup := hnd.2
    rcases List.mem_cons.1 hk with he | hm
    · subst he
      have hne : ∀ z ∈ ks, z.groupKind ≠ k.groupKind := by
        intro z hz heq
        exact hnd.1 (by rw [← heq]; exact List.mem_map_of_mem _ hz)
      cases hx : kindIndex s k.groupKind with
      | none =>
        rw [ek_cons_none s k ks b hx]
        exact ek_mem_preserved ks _ true k
          (List.mem_append.2 (Or.inr (List.mem_singleton.2 rfl))) hne
      | some i =>
        rw [ek_cons_some s k ks b i hx]
        by_cases hv : (s.getD i default).version = k.version
        · rw [if_pos hv]
          obtain ⟨ki, hki, hgki⟩ := kindIndex_some_gk s k.groupKind i hx
          have hD : s.getD i default = ki := getD_of_getElem? s i ki hki
          have hkik : ki = k := gvk_ext ki k hgki (by rw [← hD, hv])
          apply ek_mem_preserved ks s b k _ hne
          obtain ⟨hh, hval⟩ := List.getElem?_eq_some.1 hki
          rw [← hkik, ← hval]
          exact List.getElem_mem hh
        · rw [if_neg hv]
          apply ek_mem_preserved ks _ true k _ hne
          have hlt := kindIndex_some_lt s k.groupKind i hx
          have hj? : (s.set i k)[i]? = some k := by
            rw [List.getElem?_set]
            simp [hlt]
          exact List.mem_iff_getElem?.2 ⟨i, hj?⟩
    · cases hx : kindIndex s y.groupKind with
      | none =>
        rw [ek_cons_none s y ks b hx]
        exact ih hndt _ true k hm
      | some i =>
        rw [ek_cons_some s y ks b i hx]
        by_cases hv : (s.getD i default).version = y.version
        · rw [if_pos hv]
          exact ih hndt s b k hm
        · rw [if_neg hv]
          exact ih hndt _ true k hm

theorem applyPatch_result_key_fields (c : Cluster) (ch : Obj) :
    (applyPatch c ch).1 ∈ (applyPatch c ch).2.objs ∧
    objKey (applyPatch c ch).1 = objKey ch ∧
    appliedFields (applyPatch c ch).1 = appliedFields ch := by
  cases hf : findObj c ch with
  | some s =>
    obtain ⟨hsm, hsk⟩ := findObj_some_props c ch s hf
    by_cases heq : appliedFields s = appliedFields ch
    · rw [applyPatch_noop c ch s hf heq]
      exact ⟨hsm, hsk, heq⟩
    · rw [applyPatch_replace c ch s hf heq]
      dsimp only
      refine ⟨?_, ?_, rfl⟩
      · unfold replaceByKey
        exact List.mem_map.2 ⟨s, hsm, by rw [if_pos rfl]⟩
      · rw [← hsk]
        rfl
  | none =>
    rw [applyPatch_create c ch hf]
    dsimp only
    exact ⟨List.mem_append.2 (Or.inr (List.mem_singleton.2 rfl)), rfl, rfl⟩

theorem applyPatch_preserve (c : Cluster) (ch s : Obj) (hs : s ∈ c.objs)
    (hne : objKey s ≠ objKey ch) : s ∈ (applyPatch c ch).2.objs := by
  cases hf : findObj c ch with
  | some s₀ =>
    obtain ⟨hm₀, hk₀⟩ := findObj_some_props c ch s₀ hf
    by_cases heq : appliedFields s₀ = appliedFields ch
    · rw [applyPatch_noop c ch s₀ hf heq]
      exact hs
    · rw [applyPatch_replace c ch s₀ hf heq]
      dsimp only
      unfold replaceByKey
      refine List.mem_map.2 ⟨s, hs, ?_⟩
      rw [if_neg (fun he => hne (he.trans hk₀))]
  | none =>
    rw [applyPatch_create c ch hf]
    dsimp only
    exact List.mem_append.2 (Or.inl hs)

theorem applyFold_preserve (o : Oracles) :
    ∀ (kids : List Obj) (c : Cluster) (s : Obj), s ∈ c.objs →
    (∀ kid ∈ kids, objKey s ≠ objKey kid) → s ∈ (applyFold o c kids).objs := by
  intro kids
  induction kids with
  | nil => intro c s hs _; exact hs
  | cons kid rest ih =>
    intro c s hs hne
    unfold applyFold
    cases hp : o.patchFail kid with
    | some e =>
      dsimp only
      exact ih c s hs (fun k hk => hne k (List.mem_cons_of_mem kid hk))
    | none =>
      dsimp only
      exact ih _ s (applyPatch_preserve c kid s hs (hne kid (List.mem_cons_self kid rest)))
        (fun k hk => hne k (List.mem_cons_of_mem kid hk))

theorem applyFold_wf (o : Oracles) :
    ∀ (kids : List Obj) (c : Cluster), c.WellFormed → (applyFold o c kids).WellFormed := by
  intro kids
  induction kids with
  | nil => intro c h; exact h
  | cons kid rest ih =>
    intro c h
    unfold applyFold
    cases hp : o.patchFail kid with
    | some e =>
      dsimp only
      exact ih c h
    | none =>
      dsimp only
      exact ih _ (applyPatch_wf c kid h)

theorem findObj_of_mem (c : Cluster) (ch s : Obj) (hnk : (c.objs.map objKey).Nodup)
    (hs : s ∈ c.objs) (hk : objKey s = objKey ch) : findObj c ch = some s := by
  cases hf : findObj c ch with
  | none => exact absurd hk (findObj_none_keys c ch hf s hs)
  | some s' =>
    obtain ⟨hm', hk'⟩ := findObj_some_props c ch s' hf
    have : s' = s := List.inj_on_of_nodup_map hnk hm' hs (by rw [hk', hk])
    rw [this]

theorem cluster_filter_wf (c : Cluster) (pred : Obj → Bool) (hwf : c.WellFormed) :
    Cluster.WellFormed { c with objs := c.objs.filter pred } := by
  obtain ⟨h1, h2, h3⟩ := hwf
  refine ⟨?_, ?_, ?_⟩
  · exact List.Nodup.sublist (List.Sublist.map _ (List.filter_sublist _)) h1
  · intro ob hob
    exact h2 ob (List.mem_of_mem_filter hob)
  · exact List.Nodup.sublist (List.Sublist.map _ (List.filter_sublist _)) h3

theorem applyFold_stored (o : Oracles) (hpf : ∀ ch, o.patchFail ch = none) :
    ∀ (kids : List Obj) (c : Cluster), (kids.map objKey).Nodup → c.WellFormed →
    (∀ kid ∈ kids, ∃ s, findObj (applyFold o c kids) kid = some s ∧
      appliedFields s = appliedFields kid) ∧
    collectPatched o c kids = kids.map (fun kid => findUID (applyFold o c kids) kid) := by
  intro kids
  induction kids with
  | nil =>
    intro c _ _
    exact ⟨fun kid hk => absurd hk (List.not_mem_nil kid), rfl⟩
  | cons kid rest ih =>
    intro c hnk hwf
    have hnk' : (rest.map objKey).Nodup := by
      simp only [List.map_cons, List.nodup_cons] at hnk
      exact hnk.2
    have hhead : ∀ k' ∈ rest, objKey k' ≠ objKey kid := by
      intro k' hk' he
      simp only [List.map_cons, List.nodup_cons] at hnk
      exact hnk.1 (by rw [← he]; exact List.mem_map_of_mem _ hk')
    obtain ⟨hres_mem, hres_key, hres_fields⟩ := applyPatch_result_key_fields c kid
    have hstep : applyFold o c (kid :: rest) = applyFold o (applyPatch c kid).2 rest := by
      simp [applyFold, hpf]
    have hcolstep : collectPatched o c (kid :: rest) =
        (applyPatch c kid).1.uid :: collectPatched o (applyPatch c kid).2 rest := by
      simp [collectPatched, hpf]
    obtain ⟨ihf, ihc⟩ := ih (applyPatch c kid).2 hnk' (applyPatch_wf c kid hwf)
    have hs₀mem : (applyPatch c kid).1 ∈ (applyFold o (applyPatch c kid).2 rest).objs :=
      applyFold_preserve o rest (applyPatch c kid).2 (applyPatch c kid).1 hres_mem
        (fun k' hk' => by rw [hres_key]; exact fun he => hhead k' hk' he.symm)
    have hfWF : (applyFold o (applyPatch c kid).2 rest).WellFormed :=
      applyFold_wf o rest _ (applyPatch_wf c kid hwf)
    have hfind₀ : findObj (applyFold o (applyPatch c kid).2 rest) kid
        = some (applyPatch c kid).1 :=
      findObj_of_mem _ kid _ hfWF.2.2 hs₀mem hres_key
    constructor
    · intro k hk
      rcases List.mem_cons.1 hk with he | hm
      · subst he
        rw [hstep]
        exact ⟨(applyPatch c k).1, hfind₀, hres_fields⟩
      · rw [hstep]
        exact ihf k hm
    · rw [hcolstep, hstep, List.map_cons]
      congr 1
      unfold findUID
      rw [hfind₀]
      rfl

theorem applyFold_noop_all (o : Oracles) (hpf : ∀ ch, o.patchFail ch = none) :
    ∀ (kids : List Obj) (c : Cluster),
    (∀ kid ∈ kids, ∃ s, findObj c kid = some s ∧ appliedFields s = appliedFields kid) →
    applyFold o c kids = c ∧
    collectPatched o c kids = kids.map (fun kid => findUID c kid) := by
  intro kids
  induction kids with
  | nil => intro c _; exact ⟨rfl, rfl⟩
  | cons kid rest ih =>
    intro c hall
    obtain ⟨s, hfs, hfields⟩ := hall kid (List.mem_cons_self kid rest)
    have hnoop : applyPatch c kid = (s, c) := applyPatch_noop c kid s hfs hfields
    have hstep : applyFold o c (kid :: rest) = applyFold o c rest := by
      simp [applyFold, hpf, hnoop]
    obtain ⟨ih1, ih2⟩ := ih c (fun k hk => hall k (List.mem_cons_of_mem kid hk))
    refine ⟨by rw [hstep, ih1], ?_⟩
    have hcol : collectPatched o c (kid :: rest) = s.uid :: collectPatched o c rest := by
      simp [collectPatched, hpf, hnoop]
    rw [hcol, ih2, List.map_cons]
    congr 1
    unfold findUID
    rw [hfs]
    rfl

theorem markDesiredKinds_uids (o : Oracles) (r : Reconciler) (p : ParentObj)
    (state : State) (children : List Obj) :
    (markDesiredKinds o r p state children).1.assertedUIDs = r.assertedUIDs := by
  simp only [markDesiredKinds]
  split
  · split
    · rfl
    · rfl
  · rfl

theorem assertChildrenAux_uids_ext (o : Oracles) :
    ∀ (children : List Obj) (r : Reconciler) (c : Cluster) (pe : Option GoError),
    ∃ t, (assertChildrenAux o r c pe children).1.assertedUIDs = r.assertedUIDs ++ t := by
  intro children
  induction children with
  | nil =>
    intro r c pe
    exact ⟨[], (List.append_nil _).symm⟩
  | cons ch rest ih =>
    intro r c pe
    rw [assertChildrenAux_cons]
    cases hp : o.patchFail ch with
    | some e =>
      dsimp only
      by_cases ha : o.accessFail ch = true
      · rw [if_pos ha]
        exact ⟨[], (List.append_nil _).symm⟩
      · rw [if_neg ha]
        obtain ⟨t, ht⟩ := ih { r with assertedUIDs := r.assertedUIDs ++ [ch.uid] } c
          (tinyAppend pe (some e))
        refine ⟨[ch.uid] ++ t, ?_⟩
        rw [ht]
        dsimp only
        rw [List.append_assoc]
    | none =>
      dsimp only
      by_cases ha : o.accessFail ch = true
      · rw [if_pos ha]
        exact ⟨[], (List.append_nil _).symm⟩
      · rw [if_neg ha]
        obtain ⟨t, ht⟩ := ih
          { r with assertedUIDs := r.assertedUIDs ++ [(applyPatch c ch).1.uid] }
          (applyPatch c ch).2 pe
        refine ⟨[(applyPatch c ch).1.uid] ++ t, ?_⟩
        rw [ht]
        dsimp only
        rw [List.append_assoc]

theorem assertChildren_uids_ext (o : Oracles) (r : Reconciler) (c : Cluster)
    (children : List Obj) :
    ∃ t, (assertChildren o r c children).1.assertedUIDs = r.assertedUIDs ++ t :=
  assertChildrenAux_uids_ext o children r c none

theorem assertChildrenAux_mem_uid (o : Oracles) :
    ∀ (children : List Obj) (r : Reconciler) (c : Cluster) (pe : Option GoError)
    (ob : Obj), c.WellFormed → ob ∈ c.objs →
    ∃ ob' ∈ (assertChildrenAux o r c pe children).2.1.objs, ob'.uid = ob.uid := by
  intro children
  induction children with
  | nil =>
    intro r c pe ob _ hob
    exact ⟨ob, hob, rfl⟩
  | cons ch rest ih =>
    intro r c pe ob hwf hob
    rw [assertChildrenAux_cons]
    cases hp : o.patchFail ch with
    | some e =>
      dsimp only
      by_cases ha : o.accessFail ch = true
      · rw [if_pos ha]
        exact ⟨ob, hob, rfl⟩
      · rw [if_neg ha]
        exact ih _ c _ ob hwf hob
    | none =>
      dsimp only
      obtain ⟨ob2, hob2, hu2⟩ := applyPatch_mem_uid c ch ob hwf.2.2 hob
      by_cases ha : o.accessFail ch = true
      · rw [if_pos ha]
        exact ⟨ob2, hob2, hu2⟩
      · rw [if_neg ha]
        obtain ⟨ob3, hob3, hu3⟩ := ih _ (applyPatch c ch).2 pe ob2
          (applyPatch_wf c ch hwf) hob2
        exact ⟨ob3, hob3, hu3.trans hu2⟩

theorem assertChildren_mem_uid (o : Oracles) (r : Reconciler) (c : Cluster)
    (children : List Obj) (ob : Obj) (hwf : c.WellFormed) (hob : ob ∈ c.objs) :
    ∃ ob' ∈ (assertChildren o r c children).2.1.objs, ob'.uid = ob.uid :=
  assertChildrenAux_mem_uid o children r c none ob hwf hob

theorem hasUID_append_left (l t : List UID) (u : UID) (h : hasUID l u = true) :
    hasUID (l ++ t) u = true := by
  unfold hasUID at *
  rw [List.any_append, h]
  rfl

theorem prune_keep_surv (o : Oracles) (r : Reconciler) (p : ParentObj)
    (state : State) (c : Cluster) (ob : Obj) (hob : ob ∈ c.objs)
    (hkeep : hasUID r.assertedUIDs ob.uid = true) :
    ob ∈ (prune o r p state c).2.1.objs := by
  unfold prune
  have h := pruneKinds_keep_surv o r.assertedUIDs (toString p.uid)
    state.deployedKinds c none ob hob hkeep
  rcases hpk : pruneKinds o r.assertedUIDs (toString p.uid) c none
      state.deployedKinds with ⟨c', pe, le⟩
  rw [hpk] at h
  cases le with
  | some e => exact h
  | none =>
    dsimp only
    by_cases hpe : pe.isSome = true
    · rw [if_pos hpe]
      exact h
    · rw [if_neg hpe]
      by_cases hlen : state.deployedKinds.length ≠ r.assertedKinds.length
      · rw [if_pos hlen]
        cases o.updateFail with
        | some e => exact h
        | none => exact h
      · rw [if_neg hlen]
        exact h

theorem reconcile_first_run (o : Oracles) (p₀ : ParentObj) (c₀ : Cluster)
    (children : List Obj) (st₀ : State) (hnf : NoFailures o) (hwf : c₀.WellFormed)
    (hnk : (children.map objKey).Nodup)
    (hstate : GetCompositeState p₀ = .ok st₀)
    (hnds : (gks st₀.deployedKinds).Nodup) :
    ∃ keep p₁ c₁ stR,
      Reconcile o ⟨[], []⟩ p₀ c₀ children =
        (⟨keep, markKinds [] (children.map (fun ch => ch.gvk))⟩, p₁, c₁, none) ∧
      GetCompositeState p₁ = .ok stR ∧
      p₁.uid = p₀.uid ∧
      (gks stR.deployedKinds).Nodup ∧
      (∀ k ∈ markKinds [] (children.map (fun ch => ch.gvk)), k ∈ stR.deployedKinds) ∧
      stR.deployedKinds.length = (markKinds [] (children.map (fun ch => ch.gvk))).length ∧
      c₁.WellFormed ∧
      (∀ kid ∈ children.map (markChild p₀.uid), ∃ s, findObj c₁ kid = some s ∧
        appliedFields s = appliedFields kid) ∧
      keep = (children.map (markChild p₀.uid)).map (fun kid => findUID c₁ kid) ∧
      (∀ ob ∈ c₁.objs, isOrphan stR.deployedKinds (toString p₀.uid) keep ob = false) := by
  obtain ⟨hpf, haf, hlf, hdf, huf⟩ := hnf
  set ks := markKinds [] (children.map (fun ch => ch.gvk)) with hksdef
  set kids := children.map (markChild p₀.uid) with hkidsdef
  set stF := (State.EnsureKinds st₀ ks).1 with hstFdef
  have hksnd : (gks ks).Nodup := by
    rw [hksdef, markKinds_eq_ek (children.map (fun ch => ch.gvk)) [] false]
    exact ek_nodup _ [] false (by simp [gks])
  have hmd : ∃ p₁', markDesiredKinds o ⟨[], []⟩ p₀ st₀ children =
        (⟨[], ks⟩, kids, p₁', stF, none) ∧
      GetCompositeState p₁' = .ok stF ∧
      p₁'.uid = p₀.uid := by
    by_cases hch : (State.EnsureKinds st₀ (markKinds (⟨[], []⟩ : Reconciler).assertedKinds
        (children.map (fun ch => ch.gvk)))).2 = true
    · refine ⟨updateParent (SetCompositeState p₀ stF), ?_, ?_, ?_⟩
      · exact markDesiredKinds_changed o ⟨[], []⟩ p₀ st₀ children hch huf
      · rw [getComposite_updateParent, getComposite_setComposite]
      · rw [uid_updateParent, uid_setComposite]
    · have hch' : (State.EnsureKinds st₀ (markKinds (⟨[], []⟩ : Reconciler).assertedKinds
          (children.map (fun ch => ch.gvk)))).2 = false := Bool.eq_false_iff.mpr hch
      have hmem : ∀ k ∈ ks, k ∈ st₀.deployedKinds :=
        (ek_changed_nodup st₀.deployedKinds ks hnds).1 hch'
      have hstF : stF = st₀ := by
        rw [hstFdef, EnsureKinds_self st₀ ks hnds hmem]
      refine ⟨p₀, ?_, ?_, rfl⟩
      · exact markDesiredKinds_unchanged o ⟨[], []⟩ p₀ st₀ children hch'
      · rw [hstF]
        exact hstate
  obtain ⟨p₁', hmdk, hget₁, huid₁⟩ := hmd
  have hkidsnk : (kids.map objKey).Nodup := by
    rw [hkidsdef, List.map_map, show objKey ∘ markChild p₀.uid = objKey from
      funext (fun ch => markChild_key p₀.uid ch)]
    exact hnk
  obtain ⟨hfound, hcol⟩ := applyFold_stored o hpf kids c₀ hkidsnk hwf
  have hac := assertChildren_char o ⟨[], ks⟩ c₀ kids (fun ch _ => haf ch)
  have hfe : foldAppend none (kids.map (fun ch => o.patchFail ch)) = none := by
    apply foldAppend_all_none
    intro x hx
    rcases List.mem_map.1 hx with ⟨ob, _, hv⟩
    rw [← hv]
    exact hpf ob
  rw [hfe] at hac
  simp only [List.nil_append] at hac
  have hFnd : (gks stF.deployedKinds).Nodup := ek_nodup _ st₀.deployedKinds false hnds
  have hmemF : ∀ k ∈ ks, k ∈ stF.deployedKinds :=
    fun k hk => ek_mem_of_mem _ hksnd st₀.deployedKinds false k hk
  have hndF : stF.deployedKinds.Nodup := List.Nodup.of_map _ hFnd
  have hwfA : (applyFold o c₀ kids).WellFormed := applyFold_wf o _ c₀ hwf
  have hnone : foldAppend none ((orphansOf stF.deployedKinds (toString p₁'.uid)
      (collectPatched o c₀ kids) (applyFold o c₀ kids)).map
      (fun ob => o.deleteFail ob.uid)) = none := by
    apply foldAppend_all_none
    intro x hx
    rcases List.mem_map.1 hx with ⟨ob, _, hv⟩
    rw [← hv]
    exact hdf ob.uid
  set cPr := (⟨List.filter (pruneSurvives o stF.deployedKinds (toString p₁'.uid) (collectPatched o c₀ kids)) (applyFold o c₀ kids).objs, (applyFold o c₀ kids).nextUID⟩ : Cluster) with hcPrdef
  have hwfC : cPr.WellFormed := cluster_filter_wf _ _ hwfA
  have hstored : ∀ kid ∈ kids, ∃ s, findObj (applyFold o c₀ kids) kid = some s ∧
      findObj cPr kid = some s ∧
      appliedFields s = appliedFields kid := by
    intro kid hkid
    obtain ⟨s, hfs, hfl⟩ := hfound kid hkid
    obtain ⟨hsmem, hskey⟩ := findObj_some_props _ kid s hfs
    have hsuid : s.uid ∈ collectPatched o c₀ kids := by
      rw [hcol]
      refine List.mem_map.2 ⟨kid, hkid, ?_⟩
      unfold findUID
      rw [hfs]
      rfl
    have hsurv : pruneSurvives o stF.deployedKinds (toString p₁'.uid)
        (collectPatched o c₀ kids) s = true := by
      unfold pruneSurvives isOrphan
      rw [hasUID_of_mem _ _ hsuid]
      simp
    refine ⟨s, hfs, ?_, hfl⟩
    exact findObj_of_mem _ kid s hwfC.2.2 (List.mem_filter.2 ⟨hsmem, hsurv⟩) hskey
  have horph : ∀ ob ∈ cPr.objs,
      isOrphan stF.deployedKinds (toString p₁'.uid) (collectPatched o c₀ kids) ob
        = false := by
    intro ob hob
    obtain ⟨hmem, hsurv⟩ := List.mem_filter.1 hob
    unfold pruneSurvives at hsurv
    rw [hdf ob.uid] at hsurv
    simpa using hsurv
  have hkeepP8 : collectPatched o c₀ kids =
      kids.map (fun kid => findUID cPr kid) := by
    rw [hcol]
    apply List.map_congr_left
    intro kid hkid
    obtain ⟨s, hfs, hfs₁, _⟩ := hstored kid hkid
    unfold findUID
    rw [hfs, hfs₁]
  rw [huid₁] at horph
  by_cases hlen : stF.deployedKinds.length ≠ ks.length
  · have hpr := prune_ok_shrink o ⟨collectPatched o c₀ kids, ks⟩ p₁' stF
      (applyFold o c₀ kids) (fun g _ => hlf g) hndF hwfA.1 hnone hlen huf
    dsimp only at hpr
    have hR : Reconcile o ⟨[], []⟩ p₀ c₀ children =
        (⟨collectPatched o c₀ kids, ks⟩, updateParent (SetCompositeState p₁' ⟨ks⟩),
          cPr, none) := by
      unfold Reconcile
      rw [hstate]
      dsimp only
      rw [hmdk]
      dsimp only
      rw [hac]
      dsimp only
      rw [hpr]
    refine ⟨collectPatched o c₀ kids, updateParent (SetCompositeState p₁' ⟨ks⟩), cPr,
      ⟨ks⟩, hR, ?_, ?_, hksnd, fun k hk => hk, rfl, hwfC, ?_, hkeepP8, ?_⟩
    · rw [getComposite_updateParent, getComposite_setComposite]
    · rw [uid_updateParent, uid_setComposite, huid₁]
    · exact fun kid hkid => (hstored kid hkid).imp (fun s hs => ⟨hs.2.1, hs.2.2⟩)
    · exact fun ob hob => isOrphan_mono_false stF.deployedKinds ks (toString p₀.uid)
        (collectPatched o c₀ kids) ob hmemF (horph ob hob)
  · have hlenB : stF.deployedKinds.length = ks.length := not_not.1 hlen
    have hpr := prune_ok_same o ⟨collectPatched o c₀ kids, ks⟩ p₁' stF
      (applyFold o c₀ kids) (fun g _ => hlf g) hndF hwfA.1 hnone hlenB
    dsimp only at hpr
    have hR : Reconcile o ⟨[], []⟩ p₀ c₀ children =
        (⟨collectPatched o c₀ kids, ks⟩, p₁', cPr, none) := by
      unfold Reconcile
      rw [hstate]
      dsimp only
      rw [hmdk]
      dsimp only
      rw [hac]
      dsimp only
      rw [hpr]
    refine ⟨collectPatched o c₀ kids, p₁', cPr, stF, hR, hget₁, huid₁, hFnd, hmemF,
      hlenB, hwfC, ?_, hkeepP8, ?_⟩
    · exact fun kid hkid => (hstored kid hkid).imp (fun s hs => ⟨hs.2.1, hs.2.2⟩)
    · exact horph

theorem reconcile_stable (o : Oracles) (p : ParentObj) (c : Cluster)
    (children : List Obj) (st : State) (keep : List UID)
    (hnf : NoFailures o)
    (hst : GetCompositeState p = .ok st)
    (hnds : (gks st.deployedKinds).Nodup)
    (hmem : ∀ k ∈ markKinds [] (children.map (fun ch => ch.gvk)), k ∈ st.deployedKinds)
    (hlen : st.deployedKinds.length
      = (markKinds [] (children.map (fun ch => ch.gvk))).length)
    (hwf : c.WellFormed)
    (hfound : ∀ kid ∈ children.map (markChild p.uid), ∃ s, findObj c kid = some s ∧
      appliedFields s = appliedFields kid)
    (hkeep : keep = (children.map (markChild p.uid)).map (fun kid => findUID c kid))
    (horph : ∀ ob ∈ c.objs, isOrphan st.deployedKinds (toString p.uid) keep ob = false) :
    Reconcile o ⟨[], []⟩ p c children =
      (⟨keep, markKinds [] (children.map (fun ch => ch.gvk))⟩, p, c, none) := by
  obtain ⟨hpf, haf, hlf, hdf, huf⟩ := hnf
  set ks := markKinds [] (children.map (fun ch => ch.gvk)) with hksdef
  set kids := children.map (markChild p.uid) with hkidsdef
  have hself : State.EnsureKinds st ks = (st, false) := EnsureKinds_self st ks hnds hmem
  have hch : (State.EnsureKinds st (markKinds (⟨[], []⟩ : Reconciler).assertedKinds
      (children.map (fun ch => ch.gvk)))).2 = false := by
    show (State.EnsureKinds st ks).2 = false
    rw [hself]
  have hmdk := markDesiredKinds_unchanged o ⟨[], []⟩ p st children hch
  dsimp only at hmdk
  rw [show markKinds [] (List.map (fun ch => ch.gvk) children) = ks from rfl] at hmdk
  rw [hself] at hmdk
  dsimp only at hmdk
  have hac := assertChildren_char o ⟨[], ks⟩ c kids (fun ch _ => haf ch)
  obtain ⟨hfold, hcol⟩ := applyFold_noop_all o hpf kids c hfound
  rw [hfold, hcol, ← hkeep] at hac
  have hfe : foldAppend none (kids.map (fun ch => o.patchFail ch)) = none := by
    apply foldAppend_all_none
    intro x hx
    rcases List.mem_map.1 hx with ⟨ob, _, hv⟩
    rw [← hv]
    exact hpf ob
  rw [hfe] at hac
  simp only [List.nil_append] at hac
  have hnone : foldAppend none ((orphansOf st.deployedKinds (toString p.uid) keep c).map
      (fun ob => o.deleteFail ob.uid)) = none := by
    apply foldAppend_all_none
    intro x hx
    rcases List.mem_map.1 hx with ⟨ob, _, hv⟩
    rw [← hv]
    exact hdf ob.uid
  have hpr := prune_ok_same o ⟨keep, ks⟩ p st c (fun g _ => hlf g)
    (List.Nodup.of_map _ hnds) hwf.1 hnone hlen
  dsimp only at hpr
  have hfilter : List.filter (pruneSurvives o st.deployedKinds (toString p.uid) keep)
      c.objs = c.objs := by
    apply List.filter_eq_self.2
    intro ob hob
    unfold pruneSurvives
    rw [horph ob hob]
    rfl
  rw [hfilter] at hpr
  unfold Reconcile
  rw [hst]
  dsimp only
  rw [hmdk]
  dsimp only
  rw [hac]
  dsimp only
  rw [hpr]

theorem drv_pruneItems_frame (o : Oracles) (keep : List UID) :
    ∀ (items : List Obj) (c : Cluster) (pe : Option GoError),
    (DryRunVariant.pruneItems o keep true c pe items).1 = c := by
  intro items
  induction items with
  | nil => intro c pe; rfl
  | cons item rest ih =>
    intro c pe
    rw [DryRunVariant.pruneItems]
    by_cases hk : hasUID keep item.uid = true
    · rw [if_pos hk]
      exact ih c pe
    · rw [if_neg hk]
      cases hd : o.deleteFail item.uid with
      | some e =>
        dsimp only
        exact ih c _
      | none =>
        dsimp only
        rw [if_pos rfl]
        exact ih c pe

theorem drv_pruneKinds_frame (o : Oracles) (keep : List UID) (lv : String) :
    ∀ (dks : List GroupVersionKind) (c : Cluster) (pe : Option GoError),
    (DryRunVariant.pruneKinds o keep lv true c pe dks).1 = c := by
  intro dks
  induction dks with
  | nil => intro c pe; rfl
  | cons g rest ih =>
    intro c pe
    rw [DryRunVariant.pruneKinds]
    cases hl : o.listFail g with
    | some e => rfl
    | none =>
      dsimp only
      rcases hpi : DryRunVariant.pruneItems o keep true c pe (listLabeled c g lv)
        with ⟨c', pe'⟩
      have hc' : c' = c := by
        have h := drv_pruneItems_frame o keep (listLabeled c g lv) c pe
        rw [hpi] at h
        exact h
      dsimp only
      rw [hc']
      exact ih c pe'

theorem drv_prune_frame (o : Oracles) (p : ParentObj) (st : State) (uids : List UID)
    (dks : List GroupVersionKind) (c : Cluster) :
    (DryRunVariant.prune o p st uids dks c true).1 = p ∧
    (DryRunVariant.prune o p st uids dks c true).2.1 = c := by
  unfold DryRunVariant.prune
  rcases hpk : DryRunVariant.pruneKinds o uids (toString p.uid) true c none
      st.deployedKinds with ⟨c', pe, le⟩
  have hc' : c' = c := by
    have h := drv_pruneKinds_frame o uids (toString p.uid) st.deployedKinds c none
    rw [hpk] at h
    exact h
  subst hc'
  cases le with
  | some e => exact ⟨rfl, rfl⟩
  | none =>
    dsimp only
    by_cases hpe : pe.isSome = true
    · rw [if_pos hpe]
      exact ⟨rfl, rfl⟩
    · rw [if_neg hpe]
      rw [if_neg (by simp)]
      exact ⟨rfl, rfl⟩

theorem drv_assert_frame (o : Oracles) :
    ∀ (children : List Obj) (uids : List UID) (c : Cluster) (pe : Option GoError),
    (DryRunVariant.assertChildrenAux o true uids c pe children).2.1 = c := by
  intro children
  induction children with
  | nil => intro uids c pe; rfl
  | cons ch rest ih =>
    intro uids c pe
    simp only [DryRunVariant.assertChildrenAux]
    cases hp : o.patchFail ch with
    | some e =>
      dsimp only
      by_cases ha : o.accessFail ch = true
      · rw [if_pos ha]
      · rw [if_neg ha]
        exact ih _ c _
    | none =>
      dsimp only
      rw [if_pos trivial]
      dsimp only
      by_cases ha : o.accessFail ch = true
      · rw [if_pos ha]
      · rw [if_neg ha]
        exact ih _ c _

theorem objKey_eq_iff (a b : Obj) : objKey a = objKey b ↔
    (a.gvk = b.gvk ∧ a.ns = b.ns ∧ a.name = b.name) := by
  unfold objKey
  simp [Prod.mk.injEq]

theorem applyPatch_uid_of_found (c : Cluster) (ch s : Obj)
    (hf : findObj c ch = some s) : (applyPatch c ch).1.uid = s.uid := by
  unfold applyPatch
  rw [hf]
  dsimp only
  by_cases heq : appliedFields s = appliedFields ch
  · rw [if_pos heq]
  · rw [if_neg heq]

theorem find_uid_replace (x s s' : Obj) (hk : objKey s' = objKey s)
    (hu : s'.uid = s.uid) :
    ∀ (objs : List Obj), (∀ o ∈ objs, objKey o = objKey s → o = s) →
    Option.map (fun ob => ob.uid) ((replaceByKey objs (objKey s) s').find?
        (fun ob => ob.gvk == x.gvk && ob.ns == x.ns && ob.name == x.name))
      = Option.map (fun ob => ob.uid) (objs.find?
        (fun ob => ob.gvk == x.gvk && ob.ns == x.ns && ob.name == x.name)) := by
  intro objs
  induction objs with
  | nil => intro _; rfl
  | cons o rest ih =>
    intro hinj
    have hrest : ∀ z ∈ rest, objKey z = objKey s → z = s :=
      fun z hz h' => hinj z (List.mem_cons_of_mem o hz) h'
    unfold replaceByKey
    rw [List.map_cons]
    by_cases hko : objKey o = objKey s
    · rw [if_pos hko]
      have ho : o = s := hinj o (List.mem_cons_self o rest) hko
      have hcomp : s'.gvk = o.gvk ∧ s'.ns = o.ns ∧ s'.name = o.name :=
        (objKey_eq_iff s' o).1 (by rw [hk, ← hko])
      have hpred : (s'.gvk == x.gvk && s'.ns == x.ns && s'.name == x.name)
          = (o.gvk == x.gvk && o.ns == x.ns && o.name == x.name) := by
        rw [hcomp.1, hcomp.2.1, hcomp.2.2]
      cases hp : (o.gvk == x.gvk && o.ns == x.ns && o.name == x.name) with
      | true =>
        have h1 : (s'.gvk == x.gvk && s'.ns == x.ns && s'.name == x.name) = true := by
          rw [hpred]
          exact hp
        rw [List.find?_cons_of_pos _ (by simpa using h1)]
        rw [List.find?_cons_of_pos _ (by simpa using hp)]
        simp [hu, ho]
      | false =>
        have h1 : (s'.gvk == x.gvk && s'.ns == x.ns && s'.name == x.name) = false := by
          rw [hpred]
          exact hp
        rw [List.find?_cons_of_neg _ (by simp [h1])]
        rw [List.find?_cons_of_neg _ (by simp [hp])]
        exact ih hrest
    · rw [if_neg hko]
      cases hp : (o.gvk == x.gvk && o.ns == x.ns && o.name == x.name) with
      | true =>
        rw [List.find?_cons_of_pos _ (by simpa using hp)]
        rw [List.find?_cons_of_pos _ (by simpa using hp)]
      | false =>
        rw [List.find?_cons_of_neg _ (by simp [hp])]
        rw [List.find?_cons_of_neg _ (by simp [hp])]
        exact ih hrest

theorem applyPatch_findObj_uid (c : Cluster) (ch : Obj) (hwf : c.WellFormed)
    (hf : (findObj c ch).isSome = true) (x : Obj) :
    Option.map (fun ob => ob.uid) (findObj (applyPatch c ch).2 x)
      = Option.map (fun ob => ob.uid) (findObj c x) := by
  rcases Option.isSome_iff_exists.1 hf with ⟨s, hfs⟩
  obtain ⟨hsm, hsk⟩ := findObj_some_props c ch s hfs
  by_cases heq : appliedFields s = appliedFields ch
  · rw [applyPatch_noop c ch s hfs heq]
  · rw [applyPatch_replace c ch s hfs heq]
    dsimp only
    exact find_uid_replace x s { s with labels := ch.labels, ownerUID := ch.ownerUID, payload := ch.payload, rv := s.rv + 1 } rfl rfl c.objs
      (fun o ho hk' => List.inj_on_of_nodup_map hwf.2.2 ho hsm hk')

theorem drv_assert_uids (o : Oracles) (hpf : ∀ ch, o.patchFail ch = none)
    (haf : ∀ ch, o.accessFail ch = false) :
    ∀ (kids : List Obj) (uids : List UID) (cD cR : Cluster) (pe pe' : Option GoError),
    cR.WellFormed →
    (∀ kid ∈ kids, (findObj cD kid).isSome = true) →
    (∀ kid ∈ kids, Option.map (fun ob => ob.uid) (findObj cR kid)
      = Option.map (fun ob => ob.uid) (findObj cD kid)) →
    (DryRunVariant.assertChildrenAux o true uids cD pe kids).1
      = (DryRunVariant.assertChildrenAux o false uids cR pe' kids).1 := by
  intro kids
  induction kids with
  | nil => intro uids cD cR pe pe' _ _ _; rfl
  | cons kid rest ih =>
    intro uids cD cR pe pe' hwfR hsome hequ
    have hsD : (findObj cD kid).isSome = true := hsome kid (List.mem_cons_self kid rest)
    rcases Option.isSome_iff_exists.1 hsD with ⟨sD, hfsD⟩
    have hequid := hequ kid (List.mem_cons_self kid rest)
    have hsR : ∃ sR, findObj cR kid = some sR ∧ sR.uid = sD.uid := by
      rw [hfsD] at hequid
      cases hfr : findObj cR kid with
      | none =>
        rw [hfr] at hequid
        exact absurd hequid (by simp)
      | some sR =>
        rw [hfr] at hequid
        simp only [Option.map_some'] at hequid
        exact ⟨sR, rfl, Option.some.inj hequid⟩
    rcases hsR with ⟨sR, hfsR, huR⟩
    simp only [DryRunVariant.assertChildrenAux]
    rw [hpf kid]
    dsimp only
    rw [if_pos trivial]
    rw [if_neg (show ¬(false = true) from by simp)]
    rw [haf kid]
    simp only [if_neg (show ¬(false = true) from by simp)]
    have huidEq : (applyPatchResult cD kid).uid = (applyPatch cR kid).1.uid := by
      unfold applyPatchResult
      rw [applyPatch_uid_of_found cD kid sD hfsD, applyPatch_uid_of_found cR kid sR hfsR,
        huR]
    rw [huidEq]
    apply ih
    · exact applyPatch_wf cR kid hwfR
    · exact fun k hk => hsome k (List.mem_cons_of_mem kid hk)
    · intro k hk
      rw [applyPatch_findObj_uid cR kid hwfR (by rw [hfsR]; rfl) k]
      exact hequ k (List.mem_cons_of_mem kid hk)

/-- C1: kind migration — starting from a parent whose persisted state lists
only the `v1 Service` kind, a fresh-instance `Reconcile` whose desired list
holds a single ConfigMap child succeeds, leaves the persisted state with
deployed kinds exactly `[ConfigMap]`, and deletes every Service object
carrying the parent-correlation label (EnsureKinds first grows the in-memory
state to `[Service, ConfigMap]`, and the final length comparison in prune
detects the shrink to `[ConfigMap]`). -/
theorem c1_kind_migration (o : Oracles) (p : ParentObj) (c : Cluster) (cm : Obj)
    (hnf : NoFailures o) (hwf : c.WellFormed)
    (hstate : GetCompositeState p = .ok ⟨[svcGVK]⟩)
    (hgvk : cm.gvk = cmGVK) :
    (Reconcile o ⟨[], []⟩ p c [cm]).2.2.2 = none ∧
    GetCompositeState (Reconcile o ⟨[], []⟩ p c [cm]).2.1 = .ok ⟨[cmGVK]⟩ ∧
    ∀ ob ∈ (Reconcile o ⟨[], []⟩ p c [cm]).2.2.1.objs,
      ¬(ob.gvk = svcGVK ∧ lookupStr ob.labels parentLabelKey = some (toString p.uid)) := by
  obtain ⟨hpf, haf, hlf, hdf, huf⟩ := hnf
  have hakv : markKinds ([] : List GroupVersionKind) [cmGVK] = [cmGVK] := rfl
  have hek : State.EnsureKinds ⟨[svcGVK]⟩ [cmGVK] = (⟨[svcGVK, cmGVK]⟩, true) := by
    decide
  have hch : (State.EnsureKinds (⟨[svcGVK]⟩ : State)
      (markKinds (⟨[], []⟩ : Reconciler).assertedKinds
        (List.map (fun ch => ch.gvk) [cm]))).2 = true := by
    simp only [List.map_cons, List.map_nil, hgvk]
    decide
  have hmdk := markDesiredKinds_changed o ⟨[], []⟩ p ⟨[svcGVK]⟩ [cm] hch huf
  simp only [List.map_cons, List.map_nil, hgvk] at hmdk
  rw [hakv, hek] at hmdk
  dsimp only at hmdk
  have hac := assertChildren_char o ⟨[], [cmGVK]⟩ c [markChild p.uid cm]
    (fun ch _ => haf ch)
  have hcp : collectPatched o c [markChild p.uid cm]
      = [(applyPatch c (markChild p.uid cm)).1.uid] := by
    simp [collectPatched, hpf]
  have hafo : applyFold o c [markChild p.uid cm]
      = (applyPatch c (markChild p.uid cm)).2 := by
    simp [applyFold, hpf]
  have hfe : foldAppend none (List.map (fun ch => o.patchFail ch)
      [markChild p.uid cm]) = none := by
    simp [foldAppend, hpf, tinyAppend_none]
  rw [hcp, hafo, hfe] at hac
  simp only [List.nil_append] at hac
  have hwf2 := applyPatch_wf c (markChild p.uid cm) hwf
  have hdel : foldAppend none
      ((orphansOf (⟨[svcGVK, cmGVK]⟩ : State).deployedKinds
        (toString (updateParent (SetCompositeState p ⟨[svcGVK, cmGVK]⟩)).uid)
        (⟨[(applyPatch c (markChild p.uid cm)).1.uid], [cmGVK]⟩ : Reconciler).assertedUIDs
        (applyPatch c (markChild p.uid cm)).2).map
        (fun ob => o.deleteFail ob.uid)) = none := by
    apply foldAppend_all_none
    intro x hx
    rcases List.mem_map.1 hx with ⟨ob, _, hv⟩
    rw [← hv]
    exact hdf ob.uid
  have hpr := prune_ok_shrink o
    ⟨[(applyPatch c (markChild p.uid cm)).1.uid], [cmGVK]⟩
    (updateParent (SetCompositeState p ⟨[svcGVK, cmGVK]⟩)) ⟨[svcGVK, cmGVK]⟩
    (applyPatch c (markChild p.uid cm)).2
    (fun g _ => hlf g) (by decide) hwf2.1 hdel
    (fun h => absurd (show (2 : Nat) = 1 from h) (by decide)) huf
  dsimp only at hpr
  rw [uid_updateParent, uid_setComposite] at hpr
  have hR : Reconcile o ⟨[], []⟩ p c [cm] =
      (⟨[(applyPatch c (markChild p.uid cm)).1.uid], [cmGVK]⟩,
       updateParent (SetCompositeState
         (updateParent (SetCompositeState p ⟨[svcGVK, cmGVK]⟩)) ⟨[cmGVK]⟩),
       { (applyPatch c (markChild p.uid cm)).2 with
          objs := ((applyPatch c (markChild p.uid cm)).2.objs.filter
            (pruneSurvives o [svcGVK, cmGVK] (toString p.uid)
              [(applyPatch c (markChild p.uid cm)).1.uid])) },
       none) := by
    unfold Reconcile
    rw [hstate]
    dsimp only
    rw [hmdk]
    dsimp only
    rw [hac]
    dsimp only
    rw [hpr]
  refine ⟨?_, ?_, ?_⟩
  · rw [hR]
  · rw [hR]
    dsimp only
    rw [getComposite_updateParent, getComposite_setComposite]
  · intro ob hob
    rw [hR] at hob
    dsimp only at hob
    rintro ⟨hsvc, hlab⟩
    rcases List.mem_filter.1 hob with ⟨hmem2, hsurv⟩
    have hmm := applyPatch_result_mem c (markChild p.uid cm)
    have hcg : (markChild p.uid cm).gvk = cm.gvk := by
      simp only [markChild]
      by_cases h : cm.ns ≠ ""
      · rw [if_pos h]
      · rw [if_neg h]
    have hpg : (applyPatch c (markChild p.uid cm)).1.gvk = cmGVK := by
      rw [hmm.2, hcg, hgvk]
    have hne : ob.uid ≠ (applyPatch c (markChild p.uid cm)).1.uid := by
      intro hequ
      have hinj := List.inj_on_of_nodup_map hwf2.1
      have hob_eq : ob = (applyPatch c (markChild p.uid cm)).1 :=
        hinj hmem2 hmm.1 hequ
      rw [hob_eq, hpg] at hsvc
      exact absurd hsvc (by decide)
    have hisO : isOrphan [svcGVK, cmGVK] (toString p.uid)
        [(applyPatch c (markChild p.uid cm)).1.uid] ob = true := by
      have h1 : ([svcGVK, cmGVK] : List GroupVersionKind).contains ob.gvk = true := by
        rw [hsvc]; decide
      have h2 : (lookupStr ob.labels parentLabelKey == some (toString p.uid)) = true := by
        rw [hlab]; simp
      have h3 : hasUID [(applyPatch c (markChild p.uid cm)).1.uid] ob.uid = false := by
        simp only [hasUID, List.any_cons, List.any_nil, Bool.or_false]
        exact beq_eq_false_iff_ne.2 (Ne.symm hne)
      unfold isOrphan
      rw [h1, h2, h3]
      rfl
    have hps : pruneSurvives o [svcGVK, cmGVK] (toString p.uid)
        [(applyPatch c (markChild p.uid cm)).1.uid] ob = false := by
      unfold pruneSurvives
      rw [hisO, hdf ob.uid]
      rfl
    rw [hps] at hsurv
    exact Bool.false_ne_true hsurv

/-- Witness for C1 at a concrete input: one labelled Service stored, one
ConfigMap desired; the reconcile succeeds, the persisted kind list becomes
`[ConfigMap]` and no labelled Service remains. -/
theorem c1_kind_migration_witness :
    (Reconcile noFailOracles ⟨[], []⟩ wParentSvc wCluster1 [wCmChild]).2.2.2 = none ∧
    GetCompositeState (Reconcile noFailOracles ⟨[], []⟩ wParentSvc wCluster1
      [wCmChild]).2.1 = .ok ⟨[cmGVK]⟩ ∧
    ∀ ob ∈ (Reconcile noFailOracles ⟨[], []⟩ wParentSvc wCluster1 [wCmChild]).2.2.1.objs,
      ¬(ob.gvk = svcGVK ∧
        lookupStr ob.labels parentLabelKey = some (toString wParentSvc.uid)) :=
  c1_kind_migration noFailOracles wParentSvc wCluster1 wCmChild
    ⟨fun _ => rfl, fun _ => rfl, fun _ => rfl, fun _ => rfl, rfl⟩
    (by decide) rfl rfl

/-- C10 counterexample: `assertedKinds` is not append-only — reconciling a
`v2 Service` child on an instance whose asserted kinds already hold the
`v1 Service` overwrites that entry in place (`markKinds` sets the index), so
the prior list is no longer a prefix of the new one. -/
theorem c10_counterexample :
    ¬((ReconcileWithoutPrune noFailOracles ⟨[], [svcGVK]⟩ wParentBare wEmptyCluster
        [wSvcV2Child]).1.assertedKinds.take 1 = [svcGVK]) := by
  decide

/-- C10 (amended): the instance's `assertedUIDs` field is genuinely
append-only across `Reconcile` — the prior value stays a prefix of the new
one on every path — and the keep-set is cumulative: an object whose identity
the instance already holds in `assertedUIDs` is never pruned by a later
`Reconcile` (an object with its UID is still stored afterwards).
(`assertedKinds` satisfies no such prefix property: entries can be
overwritten in place.) -/
theorem c10_keepset_accumulation (o : Oracles) (r : Reconciler) (p : ParentObj)
    (c : Cluster) (children : List Obj) (hwf : c.WellFormed) :
    (∃ t, (Reconcile o r p c children).1.assertedUIDs = r.assertedUIDs ++ t) ∧
    ((Reconcile o r p c children).1.assertedUIDs.take r.assertedUIDs.length
      = r.assertedUIDs) ∧
    ∀ ob ∈ c.objs, hasUID r.assertedUIDs ob.uid = true →
      ∃ ob' ∈ (Reconcile o r p c children).2.2.1.objs, ob'.uid = ob.uid := by
  unfold Reconcile
  cases hg : GetCompositeState p with
  | error e =>
    dsimp only
    refine ⟨⟨[], (List.append_nil _).symm⟩, List.take_length r.assertedUIDs, ?_⟩
    intro ob hob _
    exact ⟨ob, hob, rfl⟩
  | ok state =>
    dsimp only
    rcases hm : markDesiredKinds o r p state children with ⟨r₁, ch₁, p₁, st₁, err₁⟩
    have hr₁ : r₁.assertedUIDs = r.assertedUIDs := by
      have h := markDesiredKinds_uids o r p state children
      rw [hm] at h
      exact h
    cases err₁ with
    | some e =>
      dsimp only
      refine ⟨⟨[], by rw [hr₁, List.append_nil]⟩, by rw [hr₁, List.take_length], ?_⟩
      intro ob hob _
      exact ⟨ob, hob, rfl⟩
    | none =>
      dsimp only
      rcases ha : assertChildren o r₁ c ch₁ with ⟨r₂, c₂, err₂⟩
      obtain ⟨t, ht⟩ := assertChildren_uids_ext o r₁ c ch₁
      rw [ha] at ht
      have ht2 : r₂.assertedUIDs = r.assertedUIDs ++ t := by
        rw [← hr₁]
        exact ht
      have hmem : ∀ ob ∈ c.objs, hasUID r.assertedUIDs ob.uid = true →
          ∃ ob' ∈ c₂.objs, ob'.uid = ob.uid := by
        intro ob hob _
        obtain ⟨ob', hob', hu⟩ := assertChildren_mem_uid o r₁ c ch₁ ob hwf hob
        rw [ha] at hob'
        exact ⟨ob', hob', hu⟩
      cases err₂ with
      | some e =>
        dsimp only
        exact ⟨⟨t, ht2⟩, by rw [ht2, List.take_left], hmem⟩
      | none =>
        dsimp only
        rcases hpr : prune o r₂ p₁ st₁ c₂ with ⟨p₃, c₃, err₃⟩
        refine ⟨⟨t, ht2⟩, by rw [ht2, List.take_left], ?_⟩
        intro ob hob hk
        obtain ⟨ob', hob', hu⟩ := hmem ob hob hk
        have hk' : hasUID r₂.assertedUIDs ob'.uid = true := by
          rw [ht2, hu]
          exact hasUID_append_left _ t _ hk
        have hs := prune_keep_surv o r₂ p₁ st₁ c₂ ob' hob' hk'
        rw [hpr] at hs
        exact ⟨ob', hs, hu⟩

/-- Witness for C10 (amended) at a concrete input: an instance that already
collected UID 5 reconciles an empty desired list against a cluster holding
the labelled Service with UID 5; the keep-set still starts with `[5]` and the
Service survives the prune. -/
theorem c10_keepset_accumulation_witness :
    (∃ t, (Reconcile noFailOracles ⟨[5], []⟩ wParentSvc wCluster1 []).1.assertedUIDs
        = [5] ++ t) ∧
    ((Reconcile noFailOracles ⟨[5], []⟩ wParentSvc wCluster1 []).1.assertedUIDs.take
        ([5] : List UID).length = [5]) ∧
    (∀ ob ∈ wCluster1.objs, hasUID [5] ob.uid = true →
      ∃ ob' ∈ (Reconcile noFailOracles ⟨[5], []⟩ wParentSvc wCluster1 []).2.2.1.objs,
        ob'.uid = ob.uid) :=
  c10_keepset_accumulation noFailOracles ⟨[5], []⟩ wParentSvc wCluster1 [] (by decide)

/-- C2 counterexample: without pairwise-distinct child storage keys the second
invocation is not write-free — two desired children sharing one storage key
but carrying different payloads fight over the same stored object, so the
second `Reconcile` bumps its revision again and the cluster changes. -/
theorem c2_counterexample :
    ¬((Reconcile noFailOracles ⟨[], []⟩
        (Reconcile noFailOracles ⟨[], []⟩ wParentBare wEmptyCluster
          [wDupA, wDupB]).2.1
        (Reconcile noFailOracles ⟨[], []⟩ wParentBare wEmptyCluster
          [wDupA, wDupB]).2.2.1
        [wDupA, wDupB]).2.2.1
      = (Reconcile noFailOracles ⟨[], []⟩ wParentBare wEmptyCluster
          [wDupA, wDupB]).2.2.1) := by
  decide

/-- C2 (amended): idempotence holds for desired lists whose children have
pairwise-distinct storage keys.  Starting from a fresh instance, a
well-formed cluster, and a parent with readable duplicate-free state, the
first `Reconcile` succeeds, and a second `Reconcile` on a fresh instance with
the unchanged list performs zero writes: it returns the identical
instance/parent/cluster triple — no parent update (the merged kind list is
unchanged so `EnsureKinds` reports no change and the prune lengths agree),
and no version bump on any child (every patch is a no-op). -/
theorem c2_idempotence (o : Oracles) (p₀ : ParentObj) (c₀ : Cluster)
    (children : List Obj) (st₀ : State) (hnf : NoFailures o) (hwf : c₀.WellFormed)
    (hnk : (children.map objKey).Nodup)
    (hstate : GetCompositeState p₀ = .ok st₀)
    (hnds : (gks st₀.deployedKinds).Nodup) :
    (Reconcile o ⟨[], []⟩ p₀ c₀ children).2.2.2 = none ∧
    Reconcile o ⟨[], []⟩ (Reconcile o ⟨[], []⟩ p₀ c₀ children).2.1
        (Reconcile o ⟨[], []⟩ p₀ c₀ children).2.2.1 children
      = Reconcile o ⟨[], []⟩ p₀ c₀ children := by
  obtain ⟨keep, p₁, c₁, stR, hR, hget, huidP, hnd3, hmem4, hlen5, hwf6, hfound7,
    hkeep8, horph9⟩ :=
    reconcile_first_run o p₀ c₀ children st₀ hnf hwf hnk hstate hnds
  rw [hR]
  dsimp only
  refine ⟨rfl, ?_⟩
  rw [← huidP] at hfound7 hkeep8 horph9
  exact reconcile_stable o p₁ c₁ children stR keep hnf hget hnd3 hmem4 hlen5 hwf6
    hfound7 hkeep8 horph9

/-- Witness for C2 (amended) at a concrete input: one ConfigMap child against
an empty cluster; the first reconcile creates it, the second changes
nothing. -/
theorem c2_idempotence_witness :
    (Reconcile noFailOracles ⟨[], []⟩ wParentBare wEmptyCluster [wCmChild]).2.2.2
      = none ∧
    Reconcile noFailOracles ⟨[], []⟩
        (Reconcile noFailOracles ⟨[], []⟩ wParentBare wEmptyCluster [wCmChild]).2.1
        (Reconcile noFailOracles ⟨[], []⟩ wParentBare wEmptyCluster
          [wCmChild]).2.2.1 [wCmChild]
      = Reconcile noFailOracles ⟨[], []⟩ wParentBare wEmptyCluster [wCmChild] :=
  c2_idempotence noFailOracles wParentBare wEmptyCluster [wCmChild] ⟨[]⟩
    ⟨fun _ => rfl, fun _ => rfl, fun _ => rfl, fun _ => rfl, rfl⟩
    (by decide) (by decide) rfl (by decide)

/-- C8 counterexample: identity fidelity fails for children that do not yet
exist in storage — a dry-run patch of a missing object reports the backend's
current allocator value without persisting it, so two new children both
report that value, while the real run allocates two distinct identities. -/
theorem c8_counterexample :
    ¬((DryRunVariant.Reconcile noFailOracles wParentBare wEmptyCluster
        [wNewA, wNewB] true).2.2.1
      = (DryRunVariant.Reconcile noFailOracles wParentBare wEmptyCluster
        [wNewA, wNewB] false).2.2.1) := by
  decide

/-- C8 (amended): in the dry-run revision, a dry-run reconcile is a pure
read — the parent (including its persisted state annotation) and the whole
storage backend come back unchanged — and, provided every desired child
already exists in storage (its storage key resolves), it reports exactly the
identity list a non-dry-run invocation would collect and keep.  (For children
that do not yet exist the reported identities differ: see the
counterexample.) -/
theorem c8_dry_run_fidelity (o : Oracles) (p : ParentObj) (c : Cluster)
    (children : List Obj) (hnf : NoFailures o) (hwf : c.WellFormed)
    (hfound : ∀ kid ∈ children.map (markChild p.uid), (findObj c kid).isSome = true) :
    (DryRunVariant.Reconcile o p c children true).1 = p ∧
    (DryRunVariant.Reconcile o p c children true).2.1 = c ∧
    (DryRunVariant.Reconcile o p c children true).2.2.1
      = (DryRunVariant.Reconcile o p c children false).2.2.1 := by
  obtain ⟨hpf, haf, hlf, hdf, huf⟩ := hnf
  unfold DryRunVariant.Reconcile
  cases hg : GetCompositeState p with
  | error e =>
    dsimp only
    exact ⟨rfl, rfl, rfl⟩
  | ok st =>
    dsimp only
    have hmdD : DryRunVariant.markDesiredKinds o p st children true
        = (markKinds [] (children.map (fun ch => ch.gvk)),
           children.map (markChild p.uid), p,
           (State.EnsureKinds st (markKinds [] (children.map (fun ch => ch.gvk)))).1,
           none) := by
      simp only [DryRunVariant.markDesiredKinds]
      rw [if_neg (by simp)]
    have hmdR : ∃ pR, DryRunVariant.markDesiredKinds o p st children false
        = (markKinds [] (children.map (fun ch => ch.gvk)),
           children.map (markChild p.uid), pR,
           (State.EnsureKinds st (markKinds [] (children.map (fun ch => ch.gvk)))).1,
           none) := by
      by_cases hch : (State.EnsureKinds st (markKinds []
          (children.map (fun ch => ch.gvk)))).2 = true
      · refine ⟨updateParent (SetCompositeState p (State.EnsureKinds st (markKinds []
          (children.map (fun ch => ch.gvk)))).1), ?_⟩
        simp only [DryRunVariant.markDesiredKinds]
        rw [if_pos (by simp [hch])]
        rw [huf]
      · have hch' : (State.EnsureKinds st (markKinds []
            (children.map (fun ch => ch.gvk)))).2 = false := Bool.eq_false_iff.mpr hch
        refine ⟨p, ?_⟩
        simp only [DryRunVariant.markDesiredKinds]
        rw [if_neg (by simp [hch'])]
    obtain ⟨pR, hmdR⟩ := hmdR
    rw [hmdD, hmdR]
    dsimp only
    rcases haD : DryRunVariant.assertChildren o c (children.map (markChild p.uid)) true
      with ⟨uidsD, cD₂, errD⟩
    rcases haR : DryRunVariant.assertChildren o c (children.map (markChild p.uid)) false
      with ⟨uidsR, cR₂, errR⟩
    have huids : uidsD = uidsR := by
      have h : (DryRunVariant.assertChildren o c (children.map (markChild p.uid)) true).1
          = (DryRunVariant.assertChildren o c (children.map (markChild p.uid)) false).1 :=
        drv_assert_uids o hpf haf (children.map (markChild p.uid)) [] c c none none
          hwf hfound (fun k _ => rfl)
      rw [haD, haR] at h
      exact h
    have hcD : cD₂ = c := by
      have h : (DryRunVariant.assertChildren o c (children.map (markChild p.uid))
          true).2.1 = c :=
        drv_assert_frame o (children.map (markChild p.uid)) [] c none
      rw [haD] at h
      exact h
    subst hcD
    cases errD with
    | some e =>
      dsimp only
      cases errR with
      | some e' =>
        dsimp only
        exact ⟨rfl, rfl, huids⟩
      | none =>
        dsimp only
        exact ⟨rfl, rfl, huids⟩
    | none =>
      dsimp only
      have hfr := drv_prune_frame o p (State.EnsureKinds st (markKinds []
          (children.map (fun ch => ch.gvk)))).1 uidsD
          (markKinds [] (children.map (fun ch => ch.gvk))) cD₂
      cases errR with
      | some e' =>
        dsimp only
        exact ⟨hfr.1, hfr.2, huids⟩
      | none =>
        dsimp only
        exact ⟨hfr.1, hfr.2, huids⟩

/-- Witness for C8 (amended) at a concrete input: the labelled Service
already exists, so the dry run touches nothing and reports exactly the
identity the real run reports. -/
theorem c8_dry_run_fidelity_witness :
    (DryRunVariant.Reconcile noFailOracles wParentSvc wCluster1 [wSvcObj] true).1
      = wParentSvc ∧
    (DryRunVariant.Reconcile noFailOracles wParentSvc wCluster1 [wSvcObj] true).2.1
      = wCluster1 ∧
    (DryRunVariant.Reconcile noFailOracles wParentSvc wCluster1 [wSvcObj] true).2.2.1
      = (DryRunVariant.Reconcile noFailOracles wParentSvc wCluster1
          [wSvcObj] false).2.2.1 :=
  c8_dry_run_fidelity noFailOracles wParentSvc wCluster1 [wSvcObj]
    ⟨fun _ => rfl, fun _ => rfl, fun _ => rfl, fun _ => rfl, rfl⟩
    (by decide) (by decide)

end TinyOperator
